import Mathlib

/-!
# SSD1306 frame-buffer driver (`src/inc/ssd1306.c`)

A shallow embedding of the driver's state and of its drawing functions.

* `uint8_t` / `uint16_t` values are natural numbers; every place where the C
  code converts to an 8-bit or 16-bit type carries an explicit `% 256`,
  `% 65536` or `u8`.  A `uint8_t` parameter is reduced on entry of the function
  that receives it, which is where C converts the argument.
* `ram_buffer` is the list of the `bufsize` bytes that `calloc` returned.  An
  access outside of that block has no defined behaviour in C; the embedding
  reports it as `Fault.outOfBounds` instead of inventing a result.
* A `for` loop with a `uint8_t` counter is `forU8`: it re-evaluates the loop
  condition before every iteration and wraps the counter at 256, and it counts
  fuel so that a loop whose condition never becomes false is a
  `Fault.outOfFuel` for every amount of fuel.
* `ssd1306.h` and `font.h` are not part of the sources.  The record
  `ssd1306_t` lists the fields the driver code reads and writes; the glyph
  table `font` is a parameter of the two functions that read it, and the
  macros of the header (`Header`) are a parameter of the functions that use
  them.
* The bus is the trace of the writes made through `i2c_write_blocking`.
-/

namespace SSD1306

/-! ## Data model -/

/-- Ways in which a run of the embedded code fails to produce a state. -/
inductive Fault where
  | outOfBounds
  | outOfFuel
deriving DecidableEq, Repr

/-- Decidable equality of results, so that closed runs can be evaluated. -/
instance instDecidableEqExcept {ε α : Type} [DecidableEq ε] [DecidableEq α] :
    DecidableEq (Except ε α)
  | .ok a, .ok b =>
    if h : a = b then isTrue (by rw [h]) else isFalse (fun h2 => h (by cases h2; rfl))
  | .error a, .error b =>
    if h : a = b then isTrue (by rw [h]) else isFalse (fun h2 => h (by cases h2; rfl))
  | .ok _, .error _ => isFalse (fun h => by cases h)
  | .error _, .ok _ => isFalse (fun h => by cases h)

/-- The fields of `ssd1306_t` used by `ssd1306.c`.  `port_buffer` is the
two-byte array `uint8_t port_buffer[2]`; `i2c_port` stands for the bus handle. -/
structure ssd1306_t where
  width : Nat
  height : Nat
  pages : Nat
  address : Nat
  i2c_port : Nat
  bufsize : Nat
  ram_buffer : List Nat
  port_buffer : Nat × Nat
deriving DecidableEq, Repr

/-- Conversion of a C `int` to `uint8_t`. -/
def u8 (i : Int) : Nat := (i % 256).toNat

/-- The loop `for (uint8_t i = start; cond(i); ++i) body(i)` on the state `s`.
The condition may read the state, as `y < ssd->height` does. -/
def forU8 {σ : Type} (fuel : Nat) (cond : Nat → σ → Bool)
    (body : Nat → σ → Except Fault σ) (i : Nat) (s : σ) : Except Fault σ :=
  match fuel with
  | 0 => .error .outOfFuel
  | fuel + 1 =>
    if cond i s then
      match body i s with
      | .ok s1 => forU8 fuel cond body ((i + 1) % 256) s1
      | .error e => .error e
    else .ok s

/-! ## The driver -/

/-- Function `ssd1306_init` (lines 14-24).  `calloc` is taken to succeed and returns
`bufsize` zero bytes; `external_vcc` is accepted and not stored. -/
def ssd1306_init (ssd : ssd1306_t) (width height : Nat) (external_vcc : Bool)
    (address : Nat) (i2c : Nat) : ssd1306_t :=
  let _ := external_vcc
  let width := width % 256
  let height := height % 256
  let address := address % 256
  let pages := height / 8
  let bufsize := pages * width + 1
  { width := width
    height := height
    pages := pages
    address := address
    i2c_port := i2c
    bufsize := bufsize
    ram_buffer := (List.replicate bufsize 0).set 0 0x40
    port_buffer := (0x80, ssd.port_buffer.2) }

/-- Function `ssd1306_pixel` (lines 105-112): the `uint16_t index` and the bit
number `pixel` are computed from the `uint8_t` arguments; the read-modify-write
of `ram_buffer[index]` stores a `uint8_t`.  Of the `int` mask `~(1 << pixel)`
only the low eight bits meet the byte, hence `0xFF ^^^ (1 <<< pixel)`. -/
def ssd1306_pixel (ssd : ssd1306_t) (x y : Nat) (value : Bool) : Except Fault ssd1306_t :=
  let x := x % 256
  let y := y % 256
  let index := ((y >>> 3) + (x <<< 3) + 1) % 65536
  let pixel := y &&& 0b111
  match ssd.ram_buffer[index]? with
  | none => .error .outOfBounds
  | some b =>
    if value then
      .ok { ssd with ram_buffer := ssd.ram_buffer.set index ((b ||| (1 <<< pixel)) % 256) }
    else
      .ok { ssd with ram_buffer := ssd.ram_buffer.set index (b &&& (0xFF ^^^ (1 <<< pixel))) }

/-- Function `ssd1306_fill` (lines 120-127).  Both counters are `uint8_t` and both
bounds are `uint8_t` fields, so 256 condition checks are enough for each loop. -/
def ssd1306_fill (ssd : ssd1306_t) (value : Bool) : Except Fault ssd1306_t :=
  forU8 256 (fun y s => decide (y < s.height))
    (fun y s =>
      forU8 256 (fun x s => decide (x < s.width))
        (fun x s => ssd1306_pixel s x y value) 0 s)
    0 ssd

/-- Function `ssd1306_rect` (lines 140-157).  The loop bounds `left + width`,
`top + height` and `... - 1` are C `int` expressions; the counters are
`uint8_t`.  Every loop receives `fuel` condition checks. -/
def ssd1306_rect (fuel : Nat) (ssd : ssd1306_t) (top left width height : Nat)
    (value fill : Bool) : Except Fault ssd1306_t :=
  let top := top % 256
  let left := left % 256
  let width := width % 256
  let height := height % 256
  match forU8 fuel (fun x _ => decide ((x : Int) < (left : Int) + width))
      (fun x s =>
        match ssd1306_pixel s x top value with
        | .ok s1 => ssd1306_pixel s1 x (u8 ((top : Int) + height - 1)) value
        | .error e => .error e)
      left ssd with
  | .error e => .error e
  | .ok s1 =>
    match forU8 fuel (fun y _ => decide ((y : Int) < (top : Int) + height))
        (fun y s =>
          match ssd1306_pixel s left y value with
          | .ok s2 => ssd1306_pixel s2 (u8 ((left : Int) + width - 1)) y value
          | .error e => .error e)
        top s1 with
    | .error e => .error e
    | .ok s2 =>
      if fill then
        forU8 fuel (fun x _ => decide ((x : Int) < (left : Int) + width - 1))
          (fun x s =>
            forU8 fuel (fun y _ => decide ((y : Int) < (top : Int) + height - 1))
              (fun y s => ssd1306_pixel s x y value) (u8 ((top : Int) + 1)) s)
          (u8 ((left : Int) + 1)) s2
      else .ok s2

/-- The two nested loops of `ssd1306_draw_char` (lines 181-186):
`line = font[index + i]` is stored in a `uint8_t`, the pixel value is
`(line >> j) & 1` converted to `bool`. -/
def draw_char_loops (font : Nat → Nat) (ssd : ssd1306_t) (index x y : Nat) :
    Except Fault ssd1306_t :=
  forU8 9 (fun i _ => decide (i < 8))
    (fun i s =>
      let line := font (index + i) % 256
      forU8 9 (fun j _ => decide (j < 8))
        (fun j s => ssd1306_pixel s (x + i) (y + j) (((line >>> j) &&& 1) != 0)) 0 s)
    0 ssd

/-- Function `ssd1306_draw_char` (lines 167-187).  `c` is the character code; the
`uint16_t index` is at most `(25 + 37) * 8`. -/
def ssd1306_draw_char (font : Nat → Nat) (ssd : ssd1306_t) (c x y : Nat) :
    Except Fault ssd1306_t :=
  let c := c % 256
  let x := x % 256
  let y := y % 256
  if 48 ≤ c ∧ c ≤ 57 then
    draw_char_loops font ssd (((c - 48 + 1) * 8) % 65536) x y
  else if 65 ≤ c ∧ c ≤ 90 then
    draw_char_loops font ssd (((c - 65 + 11) * 8) % 65536) x y
  else if 97 ≤ c ∧ c ≤ 122 then
    draw_char_loops font ssd (((c - 97 + 37) * 8) % 65536) x y
  else
    .ok ssd

/-- The `while (*str)` loop of `ssd1306_draw_string` (lines 199-212).  `str`
lists the bytes at the pointer; a zero byte, or the end of the list, is the
terminator. -/
def draw_string_loop (font : Nat → Nat) :
    ssd1306_t → List Nat → Nat → Nat → Except Fault ssd1306_t
  | ssd, [], _, _ => .ok ssd
  | ssd, c :: str, x, y =>
    if c % 256 = 0 then .ok ssd
    else
      match ssd1306_draw_char font ssd c x y with
      | .error e => .error e
      | .ok s1 =>
        let x1 := (x + 8) % 256
        let wrap := decide (x1 + 8 ≥ s1.width)
        let x2 := if wrap then 0 else x1
        let y2 := if wrap then (y + 8) % 256 else y
        if y2 + 8 ≥ s1.height then .ok s1
        else draw_string_loop font s1 str x2 y2

/-- Function `ssd1306_draw_string` (lines 197-213): `x` and `y` are `uint8_t`
parameters, updated in place by the loop. -/
def ssd1306_draw_string (font : Nat → Nat) (ssd : ssd1306_t) (str : List Nat) (x y : Nat) :
    Except Fault ssd1306_t :=
  draw_string_loop font ssd str (x % 256) (y % 256)


/-! ## Notions used to state the properties -/

/-- Well-formed display state: the facts `ssd1306_init` establishes about the
record, together with the ranges of its `uint8_t` fields and buffer bytes. -/
def WF (d : ssd1306_t) : Prop :=
  d.width < 256 ∧ d.height < 256 ∧ d.pages = d.height / 8 ∧
  d.bufsize = d.pages * d.width + 1 ∧ d.ram_buffer.length = d.bufsize ∧
  ∀ b ∈ d.ram_buffer, b < 256

instance instDecidableWF (d : ssd1306_t) : Decidable (WF d) := by
  unfold WF; infer_instance

/-- Bit `k` of byte `i` of a buffer (`false` outside of it). -/
def bitAt (buf : List Nat) (i k : Nat) : Bool := (buf.getD i 0).testBit k

/-- Reading pixel `(x, y)` with the addressing formula of the data model:
bit `y & 7` of byte `(y >> 3) + x * pageCount + 1`. -/
def readPixel (d : ssd1306_t) (x y : Nat) : Bool :=
  bitAt d.ram_buffer ((y >>> 3) + x * d.pages + 1) (y &&& 7)

/-- Every field except the contents of `ram_buffer` agrees. -/
def SameGeometry (d d1 : ssd1306_t) : Prop :=
  d1.width = d.width ∧ d1.height = d.height ∧ d1.pages = d.pages ∧
  d1.address = d.address ∧ d1.i2c_port = d.i2c_port ∧ d1.bufsize = d.bufsize ∧
  d1.port_buffer = d.port_buffer ∧ d1.ram_buffer.length = d.ram_buffer.length

/-- The byte `ssd1306_pixel` stores over `b` when it writes `v` to bit `p`. -/
def storedByte (b p : Nat) (v : Bool) : Nat :=
  if v then (b ||| (1 <<< p)) % 256 else b &&& (0xFF ^^^ (1 <<< p))

/-- A sequence of `ssd1306_pixel` calls, each given as `(x, y, value)`. -/
def applyWrites (d : ssd1306_t) (ws : List (Nat × Nat × Bool)) : Except Fault ssd1306_t :=
  ws.foldlM (fun s w => ssd1306_pixel s w.1 w.2.1 w.2.2) d

/-- The value the last call of `ws` addressed to `(x, y)` wrote, `dflt` if
there is none. -/
def lastWrite (ws : List (Nat × Nat × Bool)) (x y : Nat) (dflt : Bool) : Bool :=
  ws.foldl (fun acc w => if w.1 = x ∧ w.2.1 = y then w.2.2 else acc) dflt

/-- The pixel writes of the two loops of `ssd1306_draw_char`, in call order. -/
def glyphWrites (font : Nat → Nat) (index x y : Nat) : List (Nat × Nat × Bool) :=
  (List.range' 0 8).flatMap (fun i =>
    (List.range' 0 8).flatMap (fun j =>
      [(x + i, y + j, ((((font (index + i) % 256) >>> j) &&& 1) != 0))]))

/-- The pixel writes of `ssd1306_rect` when no counter wraps, in call order:
the two horizontal edges, the two vertical edges, then the interior. -/
def rectWrites (top left width height : Nat) (value fill : Bool) : List (Nat × Nat × Bool) :=
  (List.range' left width).flatMap (fun x => [(x, top, value), (x, top + height - 1, value)]) ++
  ((List.range' top height).flatMap
      (fun y => [(left, y, value), (left + width - 1, y, value)]) ++
    (if fill then
      (List.range' (left + 1) (width - 2)).flatMap (fun x =>
        (List.range' (top + 1) (height - 2)).flatMap (fun y => [(x, y, value)]))
    else []))

/-- The characters `ssd1306_draw_char` has a glyph for: `'0'..'9'`, `'A'..'Z'`,
`'a'..'z'`. -/
def supported (c : Nat) : Prop :=
  (48 ≤ c ∧ c ≤ 57) ∨ (65 ≤ c ∧ c ≤ 90) ∨ (97 ≤ c ∧ c ≤ 122)

instance instDecidableSupported (c : Nat) : Decidable (supported c) := by
  unfold supported; infer_instance

/-- Function `ssd1306_draw_char` applied in order to a list of `(c, x, y)`. -/
def drawGlyphs (font : Nat → Nat) (d : ssd1306_t) (gs : List (Nat × Nat × Nat)) :
    Except Fault ssd1306_t :=
  gs.foldlM (fun s g => ssd1306_draw_char font s g.1 g.2.1 g.2.2) d

/-- A call of one of the five pixel-drawing functions with its arguments. -/
inductive DrawCall where
  | pixel (x y : Nat) (value : Bool)
  | fill (value : Bool)
  | rect (top left width height : Nat) (value fill : Bool)
  | char (c x y : Nat)
  | string (str : List Nat) (x y : Nat)
deriving DecidableEq, Repr

/-- Executing one drawing call. -/
def DrawCall.run (font : Nat → Nat) (fuel : Nat) (d : ssd1306_t) :
    DrawCall → Except Fault ssd1306_t
  | .pixel x y v => ssd1306_pixel d x y v
  | .fill v => ssd1306_fill d v
  | .rect top left w h v f => ssd1306_rect fuel d top left w h v f
  | .char c x y => ssd1306_draw_char font d c x y
  | .string str x y => ssd1306_draw_string font d str x y

/-- Executing a sequence of drawing calls, stopping at the first fault. -/
def runCalls (font : Nat → Nat) (fuel : Nat) (d : ssd1306_t) (calls : List DrawCall) :
    Except Fault ssd1306_t :=
  calls.foldlM (fun s call => call.run font fuel s) d

/-- A freshly initialised 128 x 64 display at address `0x3C`: the geometry the
spec names for `WIDTH` and `HEIGHT` (macros of the absent `ssd1306.h`) and the
address `ws2812.c` defines. -/
def demo : ssd1306_t := ssd1306_init ⟨0, 0, 0, 0, 0, 0, [], (0, 0)⟩ 128 64 false 0x3C 1

/-- A freshly initialised 16 x 64 display. -/
def narrow : ssd1306_t := ssd1306_init ⟨0, 0, 0, 0, 0, 0, [], (0, 0)⟩ 16 64 false 0x3C 1

/-- A freshly initialised 24 x 64 display. -/
def small : ssd1306_t := ssd1306_init ⟨0, 0, 0, 0, 0, 0, [], (0, 0)⟩ 24 64 false 0x3C 1

/-- A glyph table for closed runs: entry `k` is `k % 256`. -/
def testFont : Nat → Nat := fun k => k % 256

/-- The display `small` with pixel `(0, 0)` switched on. -/
def smallOn : ssd1306_t := { small with ram_buffer := small.ram_buffer.set 1 1 }

/-- A freshly initialised 128 x 32 display: `pages = 4`, `bufsize = 513`. -/
def d32 : ssd1306_t := ssd1306_init ⟨0, 0, 0, 0, 0, 0, [], (0, 0)⟩ 128 32 false 0x3C 1

/-- A sample sequence of drawing calls for the 16 x 64 display. -/
def sampleCalls : List DrawCall :=
  [.fill true, .rect 8 2 10 5 false true, .char 65 0 0, .string [65, 66] 0 8, .pixel 3 3 true]

/-! ## The bus side of the driver -/

/-- The macros of `ssd1306.h` that `ssd1306.c` uses.  The header is not part of
the sources, so their values are parameters of the functions that read them. -/
structure Header where
  SET_CONTRAST : Nat
  SET_ENTIRE_ON : Nat
  SET_NORM_INV : Nat
  SET_DISP : Nat
  SET_MEM_ADDR : Nat
  SET_COL_ADDR : Nat
  SET_PAGE_ADDR : Nat
  SET_DISP_START_LINE : Nat
  SET_SEG_REMAP : Nat
  SET_MUX_RATIO : Nat
  SET_COM_OUT_DIR : Nat
  SET_DISP_OFFSET : Nat
  SET_COM_PIN_CFG : Nat
  SET_DISP_CLK_DIV : Nat
  SET_PRECHARGE : Nat
  SET_VCOM_DESEL : Nat
  SET_CHARGE_PUMP : Nat
  WIDTH : Nat
  HEIGHT : Nat
deriving DecidableEq, Repr

/-- One blocking write on the bus: the handle, the target address and the
bytes written. -/
structure Transfer where
  port : Nat
  address : Nat
  bytes : List Nat
deriving DecidableEq, Repr

/-- The bus as the trace of the transfers written so far. -/
abbrev Bus := List Transfer

/-- The SDK call `i2c_write_blocking(i2c, addr, src, len, nostop)` as seen by
the trace: the first `len` bytes at `src` go to `addr`.  Its return value is
ignored by the driver. -/
def i2c_write_blocking (bus : Bus) (i2c addr : Nat) (src : List Nat) (len : Nat) : Bus :=
  bus ++ [{ port := i2c, address := addr, bytes := src.take len }]

/-- Function `ssd1306_command` (lines 65-74): the `uint8_t command` goes to
`port_buffer[1]`, then the two bytes of `port_buffer` are written. -/
def ssd1306_command (st : ssd1306_t × Bus) (command : Nat) : ssd1306_t × Bus :=
  let command := command % 256
  let ssd := { st.1 with port_buffer := (st.1.port_buffer.1, command) }
  (ssd, i2c_write_blocking st.2 ssd.i2c_port ssd.address
    [ssd.port_buffer.1, ssd.port_buffer.2] 2)

/-- Function `ssd1306_config` (lines 31-57): twenty-five calls of
`ssd1306_command`, in source order.  Arguments that are `int` expressions
(`SET_DISP | 0x00`, `HEIGHT - 1`) are converted by the callee. -/
def ssd1306_config (K : Header) (st : ssd1306_t × Bus) : ssd1306_t × Bus :=
  let st := ssd1306_command st ( K.SET_DISP ||| 0x00)
  let st := ssd1306_command st K.SET_MEM_ADDR
  let st := ssd1306_command st 0x01
  let st := ssd1306_command st ( K.SET_DISP_START_LINE ||| 0x00)
  let st := ssd1306_command st ( K.SET_SEG_REMAP ||| 0x01)
  let st := ssd1306_command st K.SET_MUX_RATIO
  let st := ssd1306_command st (u8 (( K.HEIGHT : Int) - 1))
  let st := ssd1306_command st ( K.SET_COM_OUT_DIR ||| 0x08)
  let st := ssd1306_command st K.SET_DISP_OFFSET
  let st := ssd1306_command st 0x00
  let st := ssd1306_command st K.SET_COM_PIN_CFG
  let st := ssd1306_command st 0x12
  let st := ssd1306_command st K.SET_DISP_CLK_DIV
  let st := ssd1306_command st 0x80
  let st := ssd1306_command st K.SET_PRECHARGE
  let st := ssd1306_command st 0xF1
  let st := ssd1306_command st K.SET_VCOM_DESEL
  let st := ssd1306_command st 0x30
  let st := ssd1306_command st K.SET_CONTRAST
  let st := ssd1306_command st 0xFF
  let st := ssd1306_command st K.SET_ENTIRE_ON
  let st := ssd1306_command st K.SET_NORM_INV
  let st := ssd1306_command st K.SET_CHARGE_PUMP
  let st := ssd1306_command st 0x14
  ssd1306_command st ( K.SET_DISP ||| 0x01)

/-- Function `ssd1306_send_data` (lines 81-95).  The data write reads
`bufsize` bytes at `ram_buffer`; reading past the allocated block is a fault. -/
def ssd1306_send_data (K : Header) (st : ssd1306_t × Bus) : Except Fault (ssd1306_t × Bus) :=
  let st := ssd1306_command st K.SET_COL_ADDR
  let st := ssd1306_command st 0
  let st := ssd1306_command st (u8 ((st.1.width : Int) - 1))
  let st := ssd1306_command st K.SET_PAGE_ADDR
  let st := ssd1306_command st 0
  let st := ssd1306_command st (u8 ((st.1.pages : Int) - 1))
  if st.1.bufsize ≤ st.1.ram_buffer.length then
    .ok (st.1, i2c_write_blocking st.2 st.1.i2c_port st.1.address st.1.ram_buffer st.1.bufsize)
  else .error .outOfBounds

/-- A call of one of the driver functions that act on an initialised display. -/
inductive DriverCall where
  | draw (call : DrawCall)
  | command (c : Nat)
  | config
  | send_data
deriving DecidableEq, Repr

/-- Executing one driver call on the display and the bus. -/
def DriverCall.run (K : Header) (font : Nat → Nat) (fuel : Nat) (st : ssd1306_t × Bus) :
    DriverCall → Except Fault (ssd1306_t × Bus)
  | .draw call =>
    match call.run font fuel st.1 with
    | .ok d => .ok (d, st.2)
    | .error e => .error e
  | .command c => .ok (ssd1306_command st c)
  | .config => .ok (ssd1306_config K st)
  | .send_data => ssd1306_send_data K st

/-- Executing a sequence of driver calls, stopping at the first fault. -/
def runDriver (K : Header) (font : Nat → Nat) (fuel : Nat) (st : ssd1306_t × Bus)
    (calls : List DriverCall) : Except Fault (ssd1306_t × Bus) :=
  calls.foldlM (fun s call => call.run K font fuel s) st

/-- The header values of the SSD1306 command set, with the 128 x 64 geometry. -/
def stdHeader : Header :=
  { SET_CONTRAST := 0x81, SET_ENTIRE_ON := 0xA4, SET_NORM_INV := 0xA6, SET_DISP := 0xAE,
    SET_MEM_ADDR := 0x20, SET_COL_ADDR := 0x21, SET_PAGE_ADDR := 0x22,
    SET_DISP_START_LINE := 0x40, SET_SEG_REMAP := 0xA0, SET_MUX_RATIO := 0xA8,
    SET_COM_OUT_DIR := 0xC0, SET_DISP_OFFSET := 0xD3, SET_COM_PIN_CFG := 0xDA,
    SET_DISP_CLK_DIV := 0xD5, SET_PRECHARGE := 0xD9, SET_VCOM_DESEL := 0xDB,
    SET_CHARGE_PUMP := 0x8D, WIDTH := 128, HEIGHT := 64 }

/-- All opcode macros of the header are command bytes. -/
def Header.IsBytes (K : Header) : Prop :=
  K.SET_CONTRAST < 256 ∧ K.SET_ENTIRE_ON < 256 ∧ K.SET_NORM_INV < 256 ∧ K.SET_DISP < 256 ∧
  K.SET_MEM_ADDR < 256 ∧ K.SET_COL_ADDR < 256 ∧ K.SET_PAGE_ADDR < 256 ∧
  K.SET_DISP_START_LINE < 256 ∧ K.SET_SEG_REMAP < 256 ∧ K.SET_MUX_RATIO < 256 ∧
  K.SET_COM_OUT_DIR < 256 ∧ K.SET_DISP_OFFSET < 256 ∧ K.SET_COM_PIN_CFG < 256 ∧
  K.SET_DISP_CLK_DIV < 256 ∧ K.SET_PRECHARGE < 256 ∧ K.SET_VCOM_DESEL < 256 ∧
  K.SET_CHARGE_PUMP < 256

instance instDecidableIsBytes (K : Header) : Decidable K.IsBytes := by
  unfold Header.IsBytes; infer_instance

/-- A display state as the driver keeps it after `ssd1306_init`: well formed,
with both protocol markers in place. -/
def Ready (d : ssd1306_t) : Prop :=
  WF d ∧ d.port_buffer.1 = 0x80 ∧ d.ram_buffer[0]? = some 0x40

/-- The local `index` of `ssd1306_pixel` for the arguments `x`, `y`. -/
def pixelIndex (x y : Nat) : Nat := (((y % 256) >>> 3) + ((x % 256) <<< 3) + 1) % 65536

/-- The local `pixel` (bit number) of `ssd1306_pixel` for the argument `y`. -/
def pixelBit (y : Nat) : Nat := (y % 256) &&& 0b111

/-- The command transfer `[0x80, b]` to the controller of display `d`. -/
def commandTransfer (d : ssd1306_t) (b : Nat) : Transfer :=
  { port := d.i2c_port, address := d.address, bytes := [0x80, b] }

/-- The three memory addressing modes of the SSD1306 controller. -/
inductive AddressingMode where
  | horizontal
  | vertical
  | page
deriving DecidableEq, Repr

/-- The operand that selects a mode after the "set memory addressing mode"
command, as the command table of the SSD1306 controller defines it (`00b`
horizontal, `01b` vertical, `10b` page).  This table belongs to the
controller, not to the repository. -/
def AddressingMode.operand : AddressingMode → Nat
  | .horizontal => 0
  | .vertical => 1
  | .page => 2

/-- The command bytes `ssd1306_config` passes to `ssd1306_command`, in order. -/
def configBytes (K : Header) : List Nat :=
  [ K.SET_DISP ||| 0x00, K.SET_MEM_ADDR, 0x01, K.SET_DISP_START_LINE ||| 0x00,
    K.SET_SEG_REMAP ||| 0x01, K.SET_MUX_RATIO, u8 (( K.HEIGHT : Int) - 1),
    K.SET_COM_OUT_DIR ||| 0x08, K.SET_DISP_OFFSET, 0x00, K.SET_COM_PIN_CFG, 0x12,
    K.SET_DISP_CLK_DIV, 0x80, K.SET_PRECHARGE, 0xF1, K.SET_VCOM_DESEL, 0x30,
    K.SET_CONTRAST, 0xFF, K.SET_ENTIRE_ON, K.SET_NORM_INV, K.SET_CHARGE_PUMP, 0x14,
    K.SET_DISP ||| 0x01 ]

/-- A sample sequence of driver calls for the 16 x 64 display. -/
def sampleDriverCalls : List DriverCall :=
  [.config, .send_data, .draw (.char 65 0 0), .command 0xA7, .draw (.pixel 3 3 true), .send_data]

/-- Filling by `memset`, as the spec allows a reimplementation to do it: byte 0
is kept and every byte of the buffer body becomes `0xFF` (on) or `0x00` (off). -/
def fill_memset (d : ssd1306_t) (value : Bool) : ssd1306_t :=
  { d with ram_buffer :=
      d.ram_buffer.take 1 ++ List.replicate (d.pages * d.width) (if value then 0xFF else 0x00) }

/-- The pixel writes of `ssd1306_rect` whenever both bounds `left + width` and
`top + height` fit in 8 bits, degenerate rectangles included, in call order.
The coordinates `top + height - 1`, `left + width - 1`, `left + 1`, `top + 1`
are the `uint8_t` values the code passes. -/
def rectCalls (top left width height : Nat) (value fill : Bool) : List (Nat × Nat × Bool) :=
  (List.range' left width).flatMap
      (fun x => [(x, top, value), (x, u8 ((top : Int) + height - 1), value)]) ++
  ((List.range' top height).flatMap
      (fun y => [(left, y, value), (u8 ((left : Int) + width - 1), y, value)]) ++
    (if fill then
      (List.range' (u8 ((left : Int) + 1))
          (((left : Int) + width - 1).toNat - u8 ((left : Int) + 1))).flatMap (fun x =>
        (List.range' (u8 ((top : Int) + 1))
          (((top : Int) + height - 1).toNat - u8 ((top : Int) + 1))).flatMap
            (fun y => [(x, y, value)]))
    else []))

/-- A freshly initialised 255 x 72 display: 9 pages, 2296 bytes, so that every
byte index `ssd1306_pixel` can compute lies inside the buffer. -/
def wide : ssd1306_t := ssd1306_init ⟨0, 0, 0, 0, 0, 0, [], (0, 0)⟩ 255 72 false 0x3C 1

/-- The pixel writes of `ssd1306_draw_char`, in call order: those of the glyph
loops for a supported character, none for any other. -/
def charWrites (font : Nat → Nat) (c x y : Nat) : List (Nat × Nat × Bool) :=
  let c := c % 256
  let x := x % 256
  let y := y % 256
  if 48 ≤ c ∧ c ≤ 57 then
    glyphWrites font (((c - 48 + 1) * 8) % 65536) x y
  else if 65 ≤ c ∧ c ≤ 90 then
    glyphWrites font (((c - 65 + 11) * 8) % 65536) x y
  else if 97 ≤ c ∧ c ≤ 122 then
    glyphWrites font (((c - 97 + 37) * 8) % 65536) x y
  else
    []

/-- The `ssd1306_draw_char` calls `(c, x, y)` made by the loop of
`ssd1306_draw_string` on a display of the given width and height, in call
order; it follows the loop of `draw_string_loop` step by step. -/
def stringGlyphs (width height : Nat) : List Nat → Nat → Nat → List (Nat × Nat × Nat)
  | [], _, _ => []
  | c :: str, x, y =>
    if c % 256 = 0 then []
    else
      let x1 := (x + 8) % 256
      let wrap := decide (x1 + 8 ≥ width)
      let x2 := if wrap then 0 else x1
      let y2 := if wrap then (y + 8) % 256 else y
      (c, x, y) :: (if y2 + 8 ≥ height then [] else stringGlyphs width height str x2 y2)

/-- The `ssd1306_pixel` calls made by `ssd1306_draw_string`, in call order. -/
def stringWrites (font : Nat → Nat) (width height : Nat) (str : List Nat) (x y : Nat) :
    List (Nat × Nat × Bool) :=
  (stringGlyphs width height str (x % 256) (y % 256)).flatMap
    (fun g => charWrites font g.1 g.2.1 g.2.2)

/-- The glyph positions the capacity claim names for a text on the 128 x 64
display: the first `min n 105` characters, the `k`-th at
`(8 * (k mod 15), 8 * (k div 15))`. -/
def capacityGlyphs (text : List Nat) : List (Nat × Nat × Nat) :=
  (List.range (min text.length 105)).map
    (fun k => (text.getD k 0, 8 * (k % 15), 8 * (k / 15)))


/-! # Properties -/

set_option maxRecDepth 100000

/-! ## Bit arithmetic -/

theorem bit_set (b p k : Nat) (hk : k < 8) :
    ((b ||| (1 <<< p)) % 256).testBit k = (b.testBit k || decide (k = p)) := by
  have h256 : (256 : Nat) = 2 ^ 8 := by norm_num
  rw [h256, Nat.testBit_mod_two_pow, Nat.testBit_or, Nat.one_shiftLeft, Nat.testBit_two_pow]
  simp [hk, eq_comm]

theorem bit_clear (b p k : Nat) (hk : k < 8) :
    (b &&& (0xFF ^^^ (1 <<< p))).testBit k = (b.testBit k && !decide (k = p)) := by
  have h255 : (0xFF : Nat) = 2 ^ 8 - 1 := by norm_num
  rw [Nat.testBit_and, Nat.testBit_xor, h255, Nat.testBit_two_pow_sub_one, Nat.one_shiftLeft,
    Nat.testBit_two_pow]
  simp [hk, eq_comm]

theorem clear_lt (b p : Nat) (hp : p < 8) : b &&& (0xFF ^^^ (1 <<< p)) < 256 := by
  have h : (0xFF ^^^ (1 <<< p)) < 2 ^ 8 := by
    apply Nat.xor_lt_two_pow
    · norm_num
    · rw [Nat.one_shiftLeft]; exact Nat.pow_lt_pow_right (by norm_num) hp
  exact Nat.and_lt_two_pow b h

/-- The byte `ssd1306_pixel` stores. -/
theorem storedByte_bit (b p k : Nat) (v : Bool) (hk : k < 8) :
    (storedByte b p v).testBit k = if k = p then v else b.testBit k := by
  unfold storedByte
  cases v
  · simp only [Bool.false_eq_true, if_false]
    rw [bit_clear b p k hk]; by_cases h : k = p <;> simp [h]
  · simp only [if_true]
    rw [bit_set b p k hk]; by_cases h : k = p <;> simp [h]

theorem storedByte_lt (b p : Nat) (v : Bool) (hp : p < 8) : storedByte b p v < 256 := by
  unfold storedByte
  cases v
  · simpa using clear_lt b p hp
  · simpa using Nat.mod_lt _ (by norm_num)

/-- The addressing of `ssd1306_pixel` in plain arithmetic. -/
theorem pixel_addr (x y : Nat) (hx : x < 256) (hy : y < 256) :
    (((y % 256) >>> 3) + ((x % 256) <<< 3) + 1) % 65536 = y / 8 + 8 * x + 1 ∧
    (y % 256) &&& 0b111 = y % 8 := by
  have h7 : (0b111 : Nat) = 2 ^ 3 - 1 := by norm_num
  rw [Nat.mod_eq_of_lt hx, Nat.mod_eq_of_lt hy, Nat.shiftRight_eq_div_pow, Nat.shiftLeft_eq, h7,
    Nat.and_pow_two_sub_one_eq_mod]
  constructor
  · norm_num; omega
  · norm_num

/-- Unfolding of one in-buffer `ssd1306_pixel` call. -/
theorem pixel_ok (d : ssd1306_t) (x y : Nat) (v : Bool) (hx : x < 256) (hy : y < 256)
    (hi : y / 8 + 8 * x + 1 < d.ram_buffer.length) :
    ssd1306_pixel d x y v = .ok { d with
      ram_buffer := d.ram_buffer.set (y / 8 + 8 * x + 1)
        (storedByte (d.ram_buffer.getD (y / 8 + 8 * x + 1) 0) (y % 8) v) } := by
  obtain ⟨h1, h2⟩ := pixel_addr x y hx hy
  unfold ssd1306_pixel storedByte
  simp only [h1, h2]
  rw [List.getElem?_eq_getElem hi]
  simp only [List.getD_eq_getElem?_getD, List.getElem?_eq_getElem hi, Option.getD_some]
  cases v <;> simp

/-- Effect of the store of `ssd1306_pixel` on every bit of the buffer. -/
theorem bitAt_set (buf : List Nat) (i p : Nat) (v : Bool) (i1 k : Nat) (hk : k < 8)
    (hi : i < buf.length) :
    bitAt (buf.set i (storedByte (buf.getD i 0) p v)) i1 k
      = if i1 = i ∧ k = p then v else bitAt buf i1 k := by
  unfold bitAt
  simp only [List.getD_eq_getElem?_getD, List.getElem?_set]
  by_cases h : i = i1
  · subst h
    simp only [if_true, hi, Option.getD_some, true_and]
    exact storedByte_bit _ p k v hk
  · have h1 : ¬ i1 = i := fun e => h e.symm
    simp [h, h1]

theorem shr3 (y : Nat) : y >>> 3 = y / 8 := by
  rw [Nat.shiftRight_eq_div_pow]

theorem and7 (y : Nat) : y &&& 7 = y % 8 := by
  have h7 : (7 : Nat) = 2 ^ 3 - 1 := by norm_num
  rw [h7, Nat.and_pow_two_sub_one_eq_mod]

theorem SameGeometry.refl (d : ssd1306_t) : SameGeometry d d := by
  unfold SameGeometry; simp

theorem SameGeometry.trans {a b c : ssd1306_t} (h1 : SameGeometry a b) (h2 : SameGeometry b c) :
    SameGeometry a c := by
  unfold SameGeometry at *
  obtain ⟨a1, a2, a3, a4, a5, a6, a7, a8⟩ := h1
  obtain ⟨b1, b2, b3, b4, b5, b6, b7, b8⟩ := h2
  exact ⟨b1.trans a1, b2.trans a2, b3.trans a3, b4.trans a4, b5.trans a5, b6.trans a6,
    b7.trans a7, b8.trans a8⟩

/-- One `ssd1306_pixel` call inside the grid of a 64-pixel-high display: it
succeeds, keeps the state well formed, and changes the reading of exactly the
addressed pixel. -/
theorem pixel_grid (d : ssd1306_t) (x y : Nat) (v : Bool) (hwf : WF d) (hh : d.height = 64)
    (hx : x < d.width) (hy : y < 64) :
    ∃ d1, ssd1306_pixel d x y v = .ok d1 ∧ WF d1 ∧ SameGeometry d d1 ∧
      ∀ x1 y1, y1 < 64 →
        readPixel d1 x1 y1 = if x1 = x ∧ y1 = y then v else readPixel d x1 y1 := by
  obtain ⟨hw, hht, hp, hb, hl, hbytes⟩ := hwf
  have hp8 : d.pages = 8 := by rw [hp, hh]
  have hlen : d.ram_buffer.length = 8 * d.width + 1 := by rw [hl, hb, hp8]
  have hi : y / 8 + 8 * x + 1 < d.ram_buffer.length := by omega
  refine ⟨_, pixel_ok d x y v (by omega) (by omega) hi, ?_, ?_, ?_⟩
  · refine ⟨hw, hht, hp, hb, ?_, ?_⟩
    · simpa using hl
    · intro b hb1
      rcases List.mem_or_eq_of_mem_set hb1 with h | h
      · exact hbytes b h
      · rw [h]; exact storedByte_lt _ _ v (Nat.mod_lt _ (by norm_num))
  · unfold SameGeometry; simp
  · intro x1 y1 hy1
    unfold readPixel
    simp only [hp8, shr3, and7]
    rw [bitAt_set _ _ _ _ _ _ (Nat.mod_lt _ (by norm_num)) hi]
    by_cases hxy : x1 = x ∧ y1 = y
    · obtain ⟨e1, e2⟩ := hxy
      subst e1 e2; simp [Nat.mul_comm]
    · have : ¬ (y1 / 8 + x1 * 8 + 1 = y / 8 + 8 * x + 1 ∧ y1 % 8 = y % 8) := by
        intro h; apply hxy; omega
      rw [if_neg this, if_neg hxy]

/-! ## Sequences of pixel writes -/

theorem applyWrites_nil (d : ssd1306_t) : applyWrites d [] = .ok d := rfl

theorem applyWrites_cons (d : ssd1306_t) (w : Nat × Nat × Bool) (ws : List (Nat × Nat × Bool)) :
    applyWrites d (w :: ws) =
      match ssd1306_pixel d w.1 w.2.1 w.2.2 with
      | .ok d1 => applyWrites d1 ws
      | .error e => .error e := by
  unfold applyWrites
  rw [List.foldlM_cons]
  cases ssd1306_pixel d w.1 w.2.1 w.2.2 <;> rfl

theorem applyWrites_append (d : ssd1306_t) (ws1 ws2 : List (Nat × Nat × Bool)) :
    applyWrites d (ws1 ++ ws2) =
      match applyWrites d ws1 with
      | .ok d1 => applyWrites d1 ws2
      | .error e => .error e := by
  induction ws1 generalizing d with
  | nil => simp [applyWrites_nil]
  | cons w ws ih =>
    rw [List.cons_append, applyWrites_cons, applyWrites_cons]
    cases h : ssd1306_pixel d w.1 w.2.1 w.2.2 with
    | error e => rfl
    | ok d1 => exact ih d1

theorem applyWrites_single (d : ssd1306_t) (x y : Nat) (v : Bool) :
    applyWrites d [(x, y, v)] = ssd1306_pixel d x y v := by
  rw [applyWrites_cons]
  cases ssd1306_pixel d x y v <;> rfl

theorem pixel_sameGeometry (d d1 : ssd1306_t) (x y : Nat) (v : Bool)
    (h : ssd1306_pixel d x y v = .ok d1) : SameGeometry d d1 := by
  unfold ssd1306_pixel at h
  simp only at h
  split at h
  · cases h
  · split at h <;> (cases h; unfold SameGeometry; simp)

theorem applyWrites_sameGeometry (ws : List (Nat × Nat × Bool)) (d d1 : ssd1306_t)
    (h : applyWrites d ws = .ok d1) : SameGeometry d d1 := by
  induction ws generalizing d with
  | nil => rw [applyWrites_nil] at h; cases h; exact SameGeometry.refl _
  | cons w ws ih =>
    rw [applyWrites_cons] at h
    cases hp : ssd1306_pixel d w.1 w.2.1 w.2.2 with
    | error e => rw [hp] at h; cases h
    | ok d2 =>
      rw [hp] at h
      exact (pixel_sameGeometry d d2 _ _ _ hp).trans (ih d2 h)

theorem lastWrite_cons (w : Nat × Nat × Bool) (ws : List (Nat × Nat × Bool)) (x y : Nat)
    (dflt : Bool) :
    lastWrite (w :: ws) x y dflt
      = lastWrite ws x y (if w.1 = x ∧ w.2.1 = y then w.2.2 else dflt) := rfl

/-- No write addressed to `(x, y)`: the earlier value stays. -/
theorem lastWrite_not_mem (ws : List (Nat × Nat × Bool)) (x y : Nat) (dflt : Bool)
    (h : ∀ v, (x, y, v) ∉ ws) : lastWrite ws x y dflt = dflt := by
  induction ws generalizing dflt with
  | nil => rfl
  | cons w ws ih =>
    rw [lastWrite_cons, ih]
    · have hw : ¬ (w.1 = x ∧ w.2.1 = y) := by
        rintro ⟨e1, e2⟩
        apply h w.2.2
        rw [← e1, ← e2]
        exact List.mem_cons_self _ _
      rw [if_neg hw]
    · intro v hv
      exact h v (List.mem_cons_of_mem _ hv)

/-- When all writes follow one picture `g`, a written pixel shows `g`. -/
theorem lastWrite_mem (g : Nat → Nat → Bool) (ws : List (Nat × Nat × Bool))
    (hg : ∀ w ∈ ws, w.2.2 = g w.1 w.2.1) (x y : Nat) (dflt : Bool)
    (h : ∃ v, (x, y, v) ∈ ws) : lastWrite ws x y dflt = g x y := by
  induction ws generalizing dflt with
  | nil => obtain ⟨v, hv⟩ := h; cases hv
  | cons w ws ih =>
    rw [lastWrite_cons]
    by_cases hin : ∃ v, (x, y, v) ∈ ws
    · exact ih (fun w1 h1 => hg w1 (List.mem_cons_of_mem _ h1)) _ hin
    · rw [lastWrite_not_mem ws x y _ (fun v hv => hin ⟨v, hv⟩)]
      obtain ⟨v, hv⟩ := h
      rcases List.mem_cons.mp hv with e | e
      · have h1 := hg w (List.mem_cons_self _ _)
        rw [← e] at h1 ⊢
        simpa using h1
      · exact absurd ⟨v, e⟩ hin

/-- In-grid writes on a 64-pixel-high display all succeed, and afterwards
every pixel shows the last value written to it. -/
theorem applyWrites_grid (ws : List (Nat × Nat × Bool)) (d : ssd1306_t) (hwf : WF d)
    (hh : d.height = 64) (hin : ∀ w ∈ ws, w.1 < d.width ∧ w.2.1 < 64) :
    ∃ d1, applyWrites d ws = .ok d1 ∧ WF d1 ∧ SameGeometry d d1 ∧
      ∀ x y, y < 64 → readPixel d1 x y = lastWrite ws x y (readPixel d x y) := by
  induction ws generalizing d with
  | nil => exact ⟨d, rfl, hwf, SameGeometry.refl d, fun _ _ _ => rfl⟩
  | cons w ws ih =>
    obtain ⟨hwx, hwy⟩ := hin w (List.mem_cons_self _ _)
    obtain ⟨d1, h1, hwf1, hg1, hr1⟩ := pixel_grid d w.1 w.2.1 w.2.2 hwf hh hwx hwy
    have hh1 : d1.height = 64 := by rw [hg1.2.1, hh]
    obtain ⟨d2, h2, hwf2, hg2, hr2⟩ := ih d1 hwf1 hh1 (fun w1 hw1 => by
      rw [hg1.1]; exact hin w1 (List.mem_cons_of_mem _ hw1))
    refine ⟨d2, ?_, hwf2, hg1.trans hg2, ?_⟩
    · rw [applyWrites_cons, h1]; exact h2
    · intro x y hy
      rw [hr2 x y hy, hr1 x y hy, lastWrite_cons]
      by_cases hxy : w.1 = x ∧ w.2.1 = y
      · obtain ⟨e1, e2⟩ := hxy
        simp [e1, e2]
      · have : ¬ (x = w.1 ∧ y = w.2.1) := fun ⟨e1, e2⟩ => hxy ⟨e1.symm, e2.symm⟩
        rw [if_neg hxy, if_neg this]

/-! ## Counting loops -/

/-- A `uint8_t` loop up to a bound of at most 255 whose body is a sequence of
pixel writes is the concatenation of those sequences. -/
theorem forU8_writes (d : ssd1306_t) (n : Nat) (hn : n ≤ 255)
    (cond : Nat → ssd1306_t → Bool) (body : Nat → ssd1306_t → Except Fault ssd1306_t)
    (f : Nat → List (Nat × Nat × Bool))
    (hcond : ∀ i s, SameGeometry d s → cond i s = decide (i < n))
    (hbody : ∀ i s, SameGeometry d s → i < n → body i s = applyWrites s (f i)) :
    ∀ (k i fuel : Nat) (s : ssd1306_t), k = n - i → k < fuel → SameGeometry d s →
      forU8 fuel cond body i s = applyWrites s ((List.range' i k).flatMap f) := by
  intro k
  induction k with
  | zero =>
    intro i fuel s hik hf hs
    obtain ⟨fuel, rfl⟩ : ∃ m, fuel = m + 1 := ⟨fuel - 1, by omega⟩
    unfold forU8
    rw [hcond i s hs]
    have : ¬ i < n := by omega
    simp [this, applyWrites_nil]
  | succ k ih =>
    intro i fuel s hik hf hs
    obtain ⟨fuel, rfl⟩ : ∃ m, fuel = m + 1 := ⟨fuel - 1, by omega⟩
    unfold forU8
    rw [hcond i s hs]
    have hlt : i < n := by omega
    simp only [hlt, decide_True, if_true]
    rw [List.range'_succ, List.flatMap_cons, applyWrites_append, hbody i s hs hlt]
    cases hb : applyWrites s (f i) with
    | error e => rfl
    | ok s1 =>
      simp only
      have h256 : (i + 1) % 256 = i + 1 := Nat.mod_eq_of_lt (by omega)
      rw [h256]
      exact ih (i + 1) fuel s1 (by omega) (by omega)
        (hs.trans (applyWrites_sameGeometry _ _ _ hb))

/-- A property of the state that every iteration keeps is kept by the loop. -/
theorem forU8_inv {σ : Type} (P : σ → Prop) (cond : Nat → σ → Bool)
    (body : Nat → σ → Except Fault σ)
    (hbody : ∀ i s s1, P s → body i s = .ok s1 → P s1) :
    ∀ (fuel i : Nat) (s s1 : σ), P s → forU8 fuel cond body i s = .ok s1 → P s1 := by
  intro fuel
  induction fuel with
  | zero =>
    intro i s s1 _ h
    unfold forU8 at h
    cases h
  | succ fuel ih =>
    intro i s s1 hs h
    unfold forU8 at h
    split at h
    · cases hb : body i s with
      | error e => rw [hb] at h; cases h
      | ok s2 =>
        rw [hb] at h
        exact ih _ s2 s1 (hbody i s s2 hs hb) h
    · cases h
      exact hs

/-! ## `ssd1306_fill` -/

/-- The pixel writes of `ssd1306_fill`, row by row. -/
theorem fill_writes (d : ssd1306_t) (v : Bool) (hwf : WF d) :
    ssd1306_fill d v = applyWrites d
      ((List.range' 0 d.height).flatMap (fun y =>
        (List.range' 0 d.width).flatMap (fun x => [(x, y, v)]))) := by
  obtain ⟨hw, hht, -⟩ := hwf
  unfold ssd1306_fill
  refine forU8_writes d d.height (by omega) _ _ _ ?_ ?_ d.height 0 256 d (by omega) (by omega)
    (SameGeometry.refl d)
  · intro i s hs
    rw [hs.2.1]
  · intro y s hs _
    refine forU8_writes d d.width (by omega) _ _ _ ?_ ?_ d.width 0 256 s (by omega) (by omega) hs
    · intro i s1 hs1
      rw [hs1.1]
    · intro x s1 _ _
      rw [applyWrites_single]

/-- Claim C3: on a well-formed display of height 64 (so 8 pages, any width up
to 255) and from any buffer state, `ssd1306_fill` succeeds and afterwards every
pixel `(x, y)` with `x < width`, `y < height` reads `value`: `true` everywhere
after `fill(true)`, `false` everywhere after `fill(false)`. -/
theorem fill_reads (d : ssd1306_t) (value : Bool) (hwf : WF d) (hh : d.height = 64) :
    ∃ d1, ssd1306_fill d value = .ok d1 ∧
      ∀ x y, x < d.width → y < d.height → readPixel d1 x y = value := by
  rw [fill_writes d value hwf]
  obtain ⟨d1, h1, -, -, hr⟩ := applyWrites_grid
    ((List.range' 0 d.height).flatMap (fun y =>
        (List.range' 0 d.width).flatMap (fun x => [(x, y, value)]))) d hwf hh (by
      intro w hw
      simp only [List.mem_flatMap, List.mem_range'_1, List.mem_singleton] at hw
      obtain ⟨y, hy, x, hx, rfl⟩ := hw
      simp only
      omega)
  refine ⟨d1, h1, ?_⟩
  intro x y hx hy
  rw [hr x y (by omega)]
  apply lastWrite_mem (fun _ _ => value)
  · intro w hw
    simp only [List.mem_flatMap, List.mem_range'_1, List.mem_singleton] at hw
    obtain ⟨y, hy, x, hx, rfl⟩ := hw
    rfl
  · refine ⟨value, ?_⟩
    simp only [List.mem_flatMap, List.mem_range'_1, List.mem_singleton]
    exact ⟨y, by omega, x, by omega, rfl⟩

theorem init_WF (ssd : ssd1306_t) (width height : Nat) (ev : Bool) (address i2c : Nat) :
    WF (ssd1306_init ssd width height ev address i2c) := by
  unfold WF ssd1306_init
  simp only [List.length_set, List.length_replicate, true_and]
  refine ⟨Nat.mod_lt _ (by norm_num), Nat.mod_lt _ (by norm_num), ?_⟩
  intro b hb
  rcases List.mem_or_eq_of_mem_set hb with h | h
  · rw [List.eq_of_mem_replicate h]; norm_num
  · rw [h]; norm_num

theorem fill_reads_witness : WF demo ∧ demo.height = 64 ∧ ∃ d1, ssd1306_fill demo true = .ok d1 ∧
      ∀ x y, x < demo.width → y < demo.height → readPixel d1 x y = true :=
  ⟨init_WF _ _ _ _ _ _, by decide, fill_reads demo true (init_WF _ _ _ _ _ _) (by decide)⟩

/-! ## `ssd1306_draw_char` -/

theorem shr_and_one (a j : Nat) : (((a >>> j) &&& 1) != 0) = a.testBit j := by
  unfold Nat.testBit
  rw [Nat.and_comm]

theorem draw_char_loops_writes (font : Nat → Nat) (d : ssd1306_t) (index x y : Nat) :
    draw_char_loops font d index x y = applyWrites d (glyphWrites font index x y) := by
  unfold draw_char_loops glyphWrites
  refine forU8_writes d 8 (by omega) _ _ _ ?_ ?_ 8 0 9 d (by omega) (by omega)
    (SameGeometry.refl d)
  · intro i s _; rfl
  · intro i s hs _
    refine forU8_writes d 8 (by omega) _ _ _ ?_ ?_ 8 0 9 s (by omega) (by omega) hs
    · intro j s1 _; rfl
    · intro j s1 _ _
      rw [applyWrites_single]

theorem mem_glyphWrites (font : Nat → Nat) (index x y : Nat) (w : Nat × Nat × Bool) :
    w ∈ glyphWrites font index x y ↔
      ∃ i, i < 8 ∧ ∃ j, j < 8 ∧ w = (x + i, y + j, (font (index + i)).testBit j) := by
  unfold glyphWrites
  simp only [List.mem_flatMap, List.mem_range'_1, List.mem_singleton, shr_and_one, Nat.zero_le,
    true_and, Nat.zero_add]
  have h256 : (256 : Nat) = 2 ^ 8 := by norm_num
  constructor
  · rintro ⟨i, hi, j, hj, rfl⟩
    refine ⟨i, hi, j, hj, ?_⟩
    rw [h256, Nat.testBit_mod_two_pow]; simp [hj]
  · rintro ⟨i, hi, j, hj, rfl⟩
    refine ⟨i, hi, j, hj, ?_⟩
    rw [h256, Nat.testBit_mod_two_pow]; simp [hj]

/-- The glyph loops on a cell inside the grid of a 64-pixel-high display. -/
theorem draw_char_loops_grid (font : Nat → Nat) (d : ssd1306_t) (index x y : Nat) (hwf : WF d)
    (hh : d.height = 64) (hx : x + 8 ≤ d.width) (hy : y + 8 ≤ 64) :
    ∃ d1, draw_char_loops font d index x y = .ok d1 ∧ WF d1 ∧ SameGeometry d d1 ∧
      (∀ i j, i < 8 → j < 8 →
        readPixel d1 (x + i) (y + j) = (font (index + i)).testBit j) ∧
      (∀ x1 y1, y1 < 64 → ¬ (x ≤ x1 ∧ x1 < x + 8 ∧ y ≤ y1 ∧ y1 < y + 8) →
        readPixel d1 x1 y1 = readPixel d x1 y1) := by
  rw [draw_char_loops_writes]
  obtain ⟨d1, h1, hwf1, hg1, hr⟩ := applyWrites_grid (glyphWrites font index x y) d hwf hh (by
    intro w hw
    obtain ⟨i, hi, j, hj, rfl⟩ := (mem_glyphWrites _ _ _ _ _).mp hw
    simp only
    omega)
  refine ⟨d1, h1, hwf1, hg1, ?_, ?_⟩
  · intro i j hi hj
    rw [hr _ _ (by omega)]
    rw [lastWrite_mem (fun x1 y1 => (font (index + (x1 - x))).testBit (y1 - y))]
    · simp
    · intro w hw
      obtain ⟨i, hi, j, hj, rfl⟩ := (mem_glyphWrites _ _ _ _ _).mp hw
      simp
    · exact ⟨_, (mem_glyphWrites _ _ _ _ _).mpr ⟨i, hi, j, hj, rfl⟩⟩
  · intro x1 y1 hy1 hout
    rw [hr _ _ hy1]
    apply lastWrite_not_mem
    intro v hv
    obtain ⟨i, hi, j, hj, e⟩ := (mem_glyphWrites _ _ _ _ _).mp hv
    simp only [Prod.mk.injEq] at e
    omega

/-- The branch of `ssd1306_draw_char` taken by a supported character. -/
theorem draw_char_supported (font : Nat → Nat) (d : ssd1306_t) (c x y base off : Nat)
    (hc : (48 ≤ c ∧ c ≤ 57 ∧ base = 48 ∧ off = 1) ∨ (65 ≤ c ∧ c ≤ 90 ∧ base = 65 ∧ off = 11) ∨
      (97 ≤ c ∧ c ≤ 122 ∧ base = 97 ∧ off = 37))
    (hx : x < 256) (hy : y < 256) :
    ssd1306_draw_char font d c x y = draw_char_loops font d ((c - base + off) * 8) x y := by
  have hc256 : c % 256 = c := Nat.mod_eq_of_lt (by omega)
  have hi : ((c - base + off) * 8) % 65536 = (c - base + off) * 8 :=
    Nat.mod_eq_of_lt (by omega)
  unfold ssd1306_draw_char
  simp only [hc256, Nat.mod_eq_of_lt hx, Nat.mod_eq_of_lt hy]
  rcases hc with ⟨h1, h2, rfl, rfl⟩ | ⟨h1, h2, rfl, rfl⟩ | ⟨h1, h2, rfl, rfl⟩
  · rw [if_pos ⟨h1, h2⟩, hi]
  · rw [if_neg (by omega), if_pos ⟨h1, h2⟩, hi]
  · rw [if_neg (by omega), if_neg (by omega), if_pos ⟨h1, h2⟩, hi]

/-- Claim C5: for a supported character `c` (digit, uppercase or lowercase,
with `base` and class offset `off` 48/1, 65/11 or 97/37) and an 8x8 cell at
`(x, y)` inside the grid of a 64-pixel-high display, `ssd1306_draw_char`
succeeds, pixel `(x+i, y+j)` of the cell becomes bit `j` of
`font[(c - base + off) * 8 + i]` (so `font[88 + i]` for `'A'` and `font[48 + i]`
for `'5'`), and every grid pixel outside the cell keeps its value. -/
theorem draw_char_glyph (font : Nat → Nat) (d : ssd1306_t) (c x y base off : Nat)
    (hwf : WF d) (hh : d.height = 64)
    (hc : (48 ≤ c ∧ c ≤ 57 ∧ base = 48 ∧ off = 1) ∨ (65 ≤ c ∧ c ≤ 90 ∧ base = 65 ∧ off = 11) ∨
      (97 ≤ c ∧ c ≤ 122 ∧ base = 97 ∧ off = 37))
    (hx : x + 8 ≤ d.width) (hy : y + 8 ≤ d.height) :
    ∃ d1, ssd1306_draw_char font d c x y = .ok d1 ∧
      (∀ i j, i < 8 → j < 8 →
        readPixel d1 (x + i) (y + j) = (font ((c - base + off) * 8 + i)).testBit j) ∧
      (c = 65 → ∀ i j, i < 8 → j < 8 →
        readPixel d1 (x + i) (y + j) = (font (88 + i)).testBit j) ∧
      (c = 53 → ∀ i j, i < 8 → j < 8 →
        readPixel d1 (x + i) (y + j) = (font (48 + i)).testBit j) ∧
      (∀ x1 y1, x1 < d.width → y1 < d.height →
        ¬ (x ≤ x1 ∧ x1 < x + 8 ∧ y ≤ y1 ∧ y1 < y + 8) →
        readPixel d1 x1 y1 = readPixel d x1 y1) := by
  have hw : d.width < 256 := hwf.1
  rw [draw_char_supported font d c x y base off hc (by omega) (by omega)]
  obtain ⟨d1, h1, -, -, hin, hout⟩ :=
    draw_char_loops_grid font d ((c - base + off) * 8) x y hwf hh hx (by omega)
  refine ⟨d1, h1, hin, ?_, ?_, ?_⟩
  · intro hc65 i j hi hj
    have e : (c - base + off) * 8 = 88 := by omega
    rw [hin i j hi hj, e]
  · intro hc53 i j hi hj
    have e : (c - base + off) * 8 = 48 := by omega
    rw [hin i j hi hj, e]
  · intro x1 y1 _ hy1 hcell
    exact hout x1 y1 (by omega) hcell

/-- Claim C6: a character code outside `'0'..'9'`, `'A'..'Z'`, `'a'..'z'` makes
`ssd1306_draw_char` return normally with the display state, frame buffer
included, exactly as it was, wherever `(x, y)` is. -/
theorem draw_char_unsupported (font : Nat → Nat) (d : ssd1306_t) (c x y : Nat) (hc : c < 256)
    (hd : ¬ (48 ≤ c ∧ c ≤ 57)) (hu : ¬ (65 ≤ c ∧ c ≤ 90)) (hl : ¬ (97 ≤ c ∧ c ≤ 122)) :
    ssd1306_draw_char font d c x y = .ok d := by
  unfold ssd1306_draw_char
  simp only [Nat.mod_eq_of_lt hc]
  rw [if_neg hd, if_neg hu, if_neg hl]

theorem draw_char_unsupported_witness :
    (33 < 256 ∧ ¬ (48 ≤ 33 ∧ 33 ≤ 57) ∧ ¬ (65 ≤ 33 ∧ 33 ≤ 90) ∧ ¬ (97 ≤ 33 ∧ 33 ≤ 122)) ∧
      ssd1306_draw_char (fun k => k % 256) demo 33 60 32 = .ok demo :=
  ⟨by decide, draw_char_unsupported (fun k => k % 256) demo 33 60 32 (by decide) (by decide)
    (by decide) (by decide)⟩

theorem draw_char_glyph_witness :
    (WF demo ∧ demo.height = 64 ∧ 60 + 8 ≤ demo.width ∧ 32 + 8 ≤ demo.height) ∧
      ∃ d1, ssd1306_draw_char (fun k => k % 256) demo 65 60 32 = .ok d1 ∧
      (∀ i j, i < 8 → j < 8 →
        readPixel d1 (60 + i) (32 + j) = (((fun k => k % 256) ((65 - 65 + 11) * 8 + i))).testBit j) ∧
      (65 = 65 → ∀ i j, i < 8 → j < 8 →
        readPixel d1 (60 + i) (32 + j) = ((fun k => k % 256) (88 + i)).testBit j) ∧
      (65 = 53 → ∀ i j, i < 8 → j < 8 →
        readPixel d1 (60 + i) (32 + j) = ((fun k => k % 256) (48 + i)).testBit j) ∧
      (∀ x1 y1, x1 < demo.width → y1 < demo.height →
        ¬ (60 ≤ x1 ∧ x1 < 60 + 8 ∧ 32 ≤ y1 ∧ y1 < 32 + 8) →
        readPixel d1 x1 y1 = readPixel demo x1 y1) :=
  ⟨⟨init_WF _ _ _ _ _ _, by decide, by decide, by decide⟩,
    draw_char_glyph (fun k => k % 256) demo 65 60 32 65 11 (init_WF _ _ _ _ _ _) (by decide)
      (by decide) (by decide) (by decide)⟩

/-! ## `ssd1306_rect` -/

theorem u8_of_lt (i : Int) (n : Nat) (h : i = (n : Int)) (hn : n < 256) : u8 i = n := by
  unfold u8
  subst h
  omega

theorem applyWrites_pair (d : ssd1306_t) (w1 w2 : Nat × Nat × Bool) :
    applyWrites d [w1, w2] =
      match ssd1306_pixel d w1.1 w1.2.1 w1.2.2 with
      | .ok d1 => ssd1306_pixel d1 w2.1 w2.2.1 w2.2.2
      | .error e => .error e := by
  rw [applyWrites_cons]
  cases ssd1306_pixel d w1.1 w1.2.1 w1.2.2 with
  | error e => rfl
  | ok d1 => exact applyWrites_single d1 w2.1 w2.2.1 w2.2.2

/-- With bounds that fit in 8 bits and at least 256 units of fuel,
`ssd1306_rect` is the sequence of pixel writes `rectWrites`. -/
theorem rect_writes (fuel : Nat) (d : ssd1306_t) (top left w h : Nat) (v fill : Bool)
    (hfuel : 256 ≤ fuel) (hw : 1 ≤ w) (hh : 1 ≤ h) (hlw : left + w ≤ 255)
    (hth : top + h ≤ 255) :
    ssd1306_rect fuel d top left w h v fill = applyWrites d (rectWrites top left w h v fill) := by
  have e1 : top % 256 = top := Nat.mod_eq_of_lt (by omega)
  have e2 : left % 256 = left := Nat.mod_eq_of_lt (by omega)
  have e3 : w % 256 = w := Nat.mod_eq_of_lt (by omega)
  have e4 : h % 256 = h := Nat.mod_eq_of_lt (by omega)
  have u1 : u8 ((top : Int) + h - 1) = top + h - 1 := u8_of_lt _ _ (by omega) (by omega)
  have u2 : u8 ((left : Int) + w - 1) = left + w - 1 := u8_of_lt _ _ (by omega) (by omega)
  have u3 : u8 ((top : Int) + 1) = top + 1 := u8_of_lt _ _ (by omega) (by omega)
  have u4 : u8 ((left : Int) + 1) = left + 1 := u8_of_lt _ _ (by omega) (by omega)
  unfold ssd1306_rect rectWrites
  simp only [e1, e2, e3, e4, u1, u2, u3, u4]
  rw [forU8_writes d (left + w) (by omega) _ _
    (fun x => [(x, top, v), (x, top + h - 1, v)]) ?_ ?_ w left fuel d (by omega) (by omega)
    (SameGeometry.refl d)]
  rotate_left
  · intro i s _
    exact decide_eq_decide.mpr (by omega)
  · intro i s _ _
    rw [applyWrites_pair]
  rw [applyWrites_append]
  cases h1 : applyWrites d
      ((List.range' left w).flatMap (fun x => [(x, top, v), (x, top + h - 1, v)])) with
  | error e => rfl
  | ok s1 =>
    have g1 : SameGeometry d s1 := applyWrites_sameGeometry _ _ _ h1
    simp only
    rw [forU8_writes d (top + h) (by omega) _ _
      (fun y => [(left, y, v), (left + w - 1, y, v)]) ?_ ?_ h top fuel s1 (by omega) (by omega)
      g1]
    rotate_left
    · intro i s _
      exact decide_eq_decide.mpr (by omega)
    · intro i s _ _
      rw [applyWrites_pair]
    rw [applyWrites_append]
    cases h2 : applyWrites s1
        ((List.range' top h).flatMap (fun y => [(left, y, v), (left + w - 1, y, v)])) with
    | error e => rfl
    | ok s2 =>
      have g2 : SameGeometry d s2 := g1.trans (applyWrites_sameGeometry _ _ _ h2)
      simp only
      cases fill with
      | false => simp [applyWrites_nil]
      | true =>
        simp only [if_true]
        refine forU8_writes d (left + w - 1) (by omega) _ _ _ ?_ ?_ (w - 2) (left + 1) fuel s2
          (by omega) (by omega) g2
        · intro i s _
          exact decide_eq_decide.mpr (by omega)
        · intro x s hs _
          refine forU8_writes d (top + h - 1) (by omega) _ _ _ ?_ ?_ (h - 2) (top + 1) fuel s
            (by omega) (by omega) hs
          · intro i s _
            exact decide_eq_decide.mpr (by omega)
          · intro y s1 _ _
            rw [applyWrites_single]

theorem mem_rectWrites (top left w h : Nat) (v fill : Bool) (x y : Nat) (v1 : Bool) :
    (x, y, v1) ∈ rectWrites top left w h v fill ↔
      v1 = v ∧
      ((left ≤ x ∧ x < left + w ∧ (y = top ∨ y = top + h - 1)) ∨
       (top ≤ y ∧ y < top + h ∧ (x = left ∨ x = left + w - 1)) ∨
       (fill = true ∧ left + 1 ≤ x ∧ x < left + 1 + (w - 2) ∧
          top + 1 ≤ y ∧ y < top + 1 + (h - 2))) := by
  unfold rectWrites
  simp only [List.mem_append, List.mem_flatMap, List.mem_range'_1, List.mem_cons,
    List.mem_singleton, Prod.mk.injEq, List.not_mem_nil, or_false]
  constructor
  · rintro (⟨a, ha, (⟨rfl, rfl, rfl⟩ | ⟨rfl, rfl, rfl⟩)⟩ | ⟨a, ha, (⟨rfl, rfl, rfl⟩ | ⟨rfl, rfl, rfl⟩)⟩ | hf)
    · exact ⟨rfl, Or.inl ⟨ha.1, ha.2, Or.inl rfl⟩⟩
    · exact ⟨rfl, Or.inl ⟨ha.1, ha.2, Or.inr rfl⟩⟩
    · exact ⟨rfl, Or.inr (Or.inl ⟨ha.1, ha.2, Or.inl rfl⟩)⟩
    · exact ⟨rfl, Or.inr (Or.inl ⟨ha.1, ha.2, Or.inr rfl⟩)⟩
    · cases fill with
      | false => simp at hf
      | true =>
        simp only [if_true, List.mem_flatMap, List.mem_range'_1, List.mem_singleton,
          Prod.mk.injEq] at hf
        obtain ⟨a, ha, b, hb, rfl, rfl, rfl⟩ := hf
        exact ⟨rfl, Or.inr (Or.inr ⟨rfl, ha.1, ha.2, hb.1, hb.2⟩)⟩
  · rintro ⟨rfl, (⟨h1, h2, (rfl | rfl)⟩ | ⟨h1, h2, (rfl | rfl)⟩ | ⟨rfl, h1, h2, h3, h4⟩)⟩
    · exact Or.inl ⟨x, ⟨h1, h2⟩, Or.inl ⟨rfl, rfl, rfl⟩⟩
    · exact Or.inl ⟨x, ⟨h1, h2⟩, Or.inr ⟨rfl, rfl, rfl⟩⟩
    · exact Or.inr (Or.inl ⟨y, ⟨h1, h2⟩, Or.inl ⟨rfl, rfl, rfl⟩⟩)
    · exact Or.inr (Or.inl ⟨y, ⟨h1, h2⟩, Or.inr ⟨rfl, rfl, rfl⟩⟩)
    · refine Or.inr (Or.inr ?_)
      simp only [if_true, List.mem_flatMap, List.mem_range'_1, List.mem_singleton,
        Prod.mk.injEq]
      exact ⟨x, ⟨h1, h2⟩, y, ⟨h3, h4⟩, by simp⟩

/-- A rectangle inside the grid of a 64-pixel-high display: the call succeeds
with any fuel from 256 on, the written pixels show `v`, the others are kept. -/
theorem rect_grid (fuel : Nat) (d : ssd1306_t) (top left w h : Nat) (v fill : Bool) (hwf : WF d)
    (hh64 : d.height = 64) (hfuel : 256 ≤ fuel) (hw : 1 ≤ w) (hh : 1 ≤ h)
    (hlw : left + w ≤ d.width) (hth : top + h ≤ 64) :
    ∃ d1, ssd1306_rect fuel d top left w h v fill = .ok d1 ∧ WF d1 ∧ SameGeometry d d1 ∧
      (∀ x y v1, (x, y, v1) ∈ rectWrites top left w h v fill → readPixel d1 x y = v) ∧
      (∀ x y, y < 64 → (∀ v1, (x, y, v1) ∉ rectWrites top left w h v fill) →
        readPixel d1 x y = readPixel d x y) := by
  have hwd : d.width < 256 := hwf.1
  rw [rect_writes fuel d top left w h v fill hfuel hw hh (by omega) (by omega)]
  have hin : ∀ p ∈ rectWrites top left w h v fill, p.1 < d.width ∧ p.2.1 < 64 := by
    rintro ⟨x, y, v1⟩ hp
    have := (mem_rectWrites top left w h v fill x y v1).mp hp
    simp only
    omega
  obtain ⟨d1, h1, hwf1, hg1, hr⟩ := applyWrites_grid _ d hwf hh64 hin
  refine ⟨d1, h1, hwf1, hg1, ?_, ?_⟩
  · intro x y v1 hmem
    rw [hr x y (hin _ hmem).2]
    apply lastWrite_mem (fun _ _ => v)
    · rintro ⟨x2, y2, v2⟩ hp
      exact ((mem_rectWrites top left w h v fill x2 y2 v2).mp hp).1
    · exact ⟨v1, hmem⟩
  · intro x y hy hnot
    rw [hr x y hy]
    exact lastWrite_not_mem _ x y _ hnot

/-- Claim C7: an outline rectangle (`fill = false`, `value = true`) with
`width ≥ 1`, `height ≥ 1` inside the grid of a cleared 64-pixel-high display:
with any fuel from 256 on the call succeeds, and afterwards a grid pixel is set
exactly when it lies in the rectangle on one of its four border lines.  For
`top = 0, left = 0, width = 10, height = 5` exactly 26 grid pixels are set. -/
theorem rect_outline_perimeter (fuel : Nat) (d : ssd1306_t) (top left w h : Nat) (hwf : WF d)
    (hh64 : d.height = 64) (hfuel : 256 ≤ fuel) (hw : 1 ≤ w) (hh : 1 ≤ h)
    (hlw : left + w ≤ d.width) (hth : top + h ≤ 64)
    (hclr : ∀ x y, x < d.width → y < 64 → readPixel d x y = false) :
    ∃ d1, ssd1306_rect fuel d top left w h true false = .ok d1 ∧
      (∀ x y, x < d.width → y < 64 →
        (readPixel d1 x y = true ↔
          (left ≤ x ∧ x < left + w ∧ top ≤ y ∧ y < top + h ∧
            (x = left ∨ x = left + w - 1 ∨ y = top ∨ y = top + h - 1)))) ∧
      (top = 0 → left = 0 → w = 10 → h = 5 →
        ((Finset.range d.width ×ˢ Finset.range 64).filter
          (fun p => readPixel d1 p.1 p.2 = true)).card = 26) := by
  obtain ⟨d1, h1, -, -, hset, hkeep⟩ :=
    rect_grid fuel d top left w h true false hwf hh64 hfuel hw hh hlw hth
  have hiff : ∀ x y, x < d.width → y < 64 →
      (readPixel d1 x y = true ↔
        (left ≤ x ∧ x < left + w ∧ top ≤ y ∧ y < top + h ∧
          (x = left ∨ x = left + w - 1 ∨ y = top ∨ y = top + h - 1))) := by
    intro x y hx hy
    by_cases hp : left ≤ x ∧ x < left + w ∧ top ≤ y ∧ y < top + h ∧
        (x = left ∨ x = left + w - 1 ∨ y = top ∨ y = top + h - 1)
    · have hm : (x, y, true) ∈ rectWrites top left w h true false := by
        rw [mem_rectWrites]
        refine ⟨rfl, ?_⟩
        simp only [Bool.false_eq_true, false_and, or_false]
        omega
      simp [hset x y true hm, hp]
    · have hn : ∀ v1, (x, y, v1) ∉ rectWrites top left w h true false := by
        intro v1 hm
        rw [mem_rectWrites] at hm
        simp only [Bool.false_eq_true, false_and, or_false] at hm
        apply hp
        omega
      rw [hkeep x y hy hn, hclr x y hx hy]
      simp [hp]
  refine ⟨d1, h1, hiff, ?_⟩
  rintro rfl rfl rfl rfl
  have hset26 : (Finset.range d.width ×ˢ Finset.range 64).filter
      (fun p => readPixel d1 p.1 p.2 = true)
      = (Finset.range 10 ×ˢ Finset.range 5).filter
          (fun p => p.1 = 0 ∨ p.1 = 9 ∨ p.2 = 0 ∨ p.2 = 4) := by
    ext ⟨x, y⟩
    simp only [Finset.mem_filter, Finset.mem_product, Finset.mem_range]
    constructor
    · rintro ⟨⟨hx, hy⟩, hr⟩
      have := (hiff x y hx hy).mp hr
      omega
    · rintro ⟨⟨hx, hy⟩, hr⟩
      have hx1 : x < d.width := by omega
      have hy1 : y < 64 := by omega
      exact ⟨⟨hx1, hy1⟩, (hiff x y hx1 hy1).mpr (by omega)⟩
  rw [hset26]
  decide

/-- Claim C8: a filled rectangle with `width ≥ 1`, `height ≥ 1` inside the grid
of a 64-pixel-high display, from any buffer state and for both values of
`value`: with any fuel from 256 on the call succeeds, every pixel of the
rectangle (border and interior) reads `value`, and every grid pixel outside
the rectangle reads as before. -/
theorem rect_filled_region (fuel : Nat) (d : ssd1306_t) (top left w h : Nat) (value : Bool)
    (hwf : WF d) (hh64 : d.height = 64) (hfuel : 256 ≤ fuel) (hw : 1 ≤ w) (hh : 1 ≤ h)
    (hlw : left + w ≤ d.width) (hth : top + h ≤ d.height) :
    ∃ d1, ssd1306_rect fuel d top left w h value true = .ok d1 ∧
      (∀ x y, left ≤ x → x < left + w → top ≤ y → y < top + h → readPixel d1 x y = value) ∧
      (∀ x y, x < d.width → y < d.height →
        ¬ (left ≤ x ∧ x < left + w ∧ top ≤ y ∧ y < top + h) →
        readPixel d1 x y = readPixel d x y) := by
  obtain ⟨d1, h1, -, -, hset, hkeep⟩ :=
    rect_grid fuel d top left w h value true hwf hh64 hfuel hw hh hlw (by omega)
  refine ⟨d1, h1, ?_, ?_⟩
  · intro x y hx1 hx2 hy1 hy2
    apply hset x y value
    rw [mem_rectWrites]
    refine ⟨rfl, ?_⟩
    simp only [true_and]
    omega
  · intro x y _ hy hout
    apply hkeep x y (by omega)
    intro v1 hm
    rw [mem_rectWrites] at hm
    apply hout
    omega

/-! ## `ssd1306_draw_string` -/

theorem drawGlyphs_nil (font : Nat → Nat) (d : ssd1306_t) : drawGlyphs font d [] = .ok d := rfl

theorem drawGlyphs_cons (font : Nat → Nat) (d : ssd1306_t) (g : Nat × Nat × Nat)
    (gs : List (Nat × Nat × Nat)) :
    drawGlyphs font d (g :: gs) =
      match ssd1306_draw_char font d g.1 g.2.1 g.2.2 with
      | .ok d1 => drawGlyphs font d1 gs
      | .error e => .error e := by
  unfold drawGlyphs
  rw [List.foldlM_cons]
  cases ssd1306_draw_char font d g.1 g.2.1 g.2.2 <;> rfl

/-- A supported character in a cell inside the grid of a 64-pixel-high
display is drawn without fault and keeps the state well formed. -/
theorem draw_char_ok (font : Nat → Nat) (d : ssd1306_t) (c x y : Nat) (hwf : WF d)
    (hh : d.height = 64) (hc : supported c) (hx : x + 8 ≤ d.width) (hy : y + 8 ≤ 64) :
    ∃ d1, ssd1306_draw_char font d c x y = .ok d1 ∧ WF d1 ∧ SameGeometry d d1 := by
  have hw : d.width < 256 := hwf.1
  have hb : ∃ base off, (48 ≤ c ∧ c ≤ 57 ∧ base = 48 ∧ off = 1) ∨
      (65 ≤ c ∧ c ≤ 90 ∧ base = 65 ∧ off = 11) ∨ (97 ≤ c ∧ c ≤ 122 ∧ base = 97 ∧ off = 37) := by
    rcases hc with h | h | h
    · exact ⟨48, 1, Or.inl ⟨h.1, h.2, rfl, rfl⟩⟩
    · exact ⟨65, 11, Or.inr (Or.inl ⟨h.1, h.2, rfl, rfl⟩)⟩
    · exact ⟨97, 37, Or.inr (Or.inr ⟨h.1, h.2, rfl, rfl⟩)⟩
  obtain ⟨base, off, hbo⟩ := hb
  rw [draw_char_supported font d c x y base off hbo (by omega) (by omega)]
  obtain ⟨d1, h1, hwf1, hg1, -⟩ :=
    draw_char_loops_grid font d ((c - base + off) * 8) x y hwf hh hx hy
  exact ⟨d1, h1, hwf1, hg1⟩

/-- One round of the `while` loop on a supported character. -/
theorem draw_string_loop_cons (font : Nat → Nat) (d : ssd1306_t) (c : Nat) (str : List Nat)
    (x y : Nat) (hc : supported c) :
    draw_string_loop font d (c :: str) x y =
      match ssd1306_draw_char font d c x y with
      | .error e => .error e
      | .ok s1 =>
        if (if (x + 8) % 256 + 8 ≥ s1.width then (y + 8) % 256 else y) + 8 ≥ s1.height
        then .ok s1
        else draw_string_loop font s1 str
          (if (x + 8) % 256 + 8 ≥ s1.width then 0 else (x + 8) % 256)
          (if (x + 8) % 256 + 8 ≥ s1.width then (y + 8) % 256 else y) := by
  have h0 : ¬ c % 256 = 0 := by
    unfold supported at hc
    omega
  rw [draw_string_loop, if_neg h0]
  cases ssd1306_draw_char font d c x y with
  | error e => rfl
  | ok s1 => simp only [decide_eq_true_eq]

/-- The loop on one line: no wrap is due before the last character and the
row is not the last one the loop accepts. -/
theorem draw_string_loop_line (font : Nat → Nat) (text : List Nat) :
    ∀ (d : ssd1306_t) (x y : Nat), WF d → d.height = 64 → (∀ c ∈ text, supported c) →
      x + 8 * text.length < d.width → y + 8 < 64 →
      ∃ d1, draw_string_loop font d text x y = .ok d1 ∧
        drawGlyphs font d
          ((List.range text.length).map (fun k => (text.getD k 0, x + 8 * k, y))) = .ok d1 := by
  induction text with
  | nil =>
    intro d x y _ _ _ _ _
    exact ⟨d, rfl, rfl⟩
  | cons c cs ih =>
    intro d x y hwf hh hsup hx hy
    have hw : d.width < 256 := hwf.1
    have hlen : (c :: cs).length = cs.length + 1 := rfl
    rw [hlen] at hx
    obtain ⟨s1, h1, hwf1, hg1⟩ := draw_char_ok font d c x y hwf hh
      (hsup c (List.mem_cons_self _ _)) (by omega) (by omega)
    have hw1 : s1.width = d.width := hg1.1
    have hh1 : s1.height = 64 := by rw [hg1.2.1, hh]
    have hmap : (List.range (c :: cs).length).map
          (fun k => ((c :: cs).getD k 0, x + 8 * k, y))
        = (c, x, y) :: (List.range cs.length).map (fun k => (cs.getD k 0, x + 8 + 8 * k, y)) := by
      rw [hlen, List.range_succ_eq_map, List.map_cons, List.map_map]
      refine congrArg₂ _ (by simp) (List.map_congr_left ?_)
      intro k _
      simp only [Function.comp, List.getD_cons_succ, Prod.mk.injEq, true_and, and_true]
      omega
    rw [hmap, drawGlyphs_cons, draw_string_loop_cons font d c cs x y
      (hsup c (List.mem_cons_self _ _)), h1]
    simp only [hw1, hh1]
    have hx8 : (x + 8) % 256 = x + 8 := Nat.mod_eq_of_lt (by omega)
    rw [hx8]
    cases cs with
    | nil =>
      refine ⟨s1, ?_, rfl⟩
      have e : ∀ a b, draw_string_loop font s1 [] a b = .ok s1 :=
        fun a b => by rw [draw_string_loop]
      simp only [e, ite_self]
    | cons c2 cs2 =>
      have hlen2 : (c2 :: cs2).length = cs2.length + 1 := rfl
      rw [hlen2] at hx
      have hnw : ¬ (x + 8 + 8 ≥ d.width) := by omega
      simp only [hnw, if_false]
      rw [if_neg (by omega)]
      exact ih s1 (x + 8) y hwf1 hh1 (fun c1 hc1 => hsup c1 (List.mem_cons_of_mem _ hc1))
        (by rw [hw1, hlen2]; omega) hy

theorem draw_char_loops_sameGeometry (font : Nat → Nat) (d d1 : ssd1306_t) (index x y : Nat)
    (h : draw_char_loops font d index x y = .ok d1) : SameGeometry d d1 := by
  unfold draw_char_loops at h
  refine forU8_inv (fun s => SameGeometry d s) _ _ ?_ _ _ d d1 (SameGeometry.refl d) h
  intro i s s1 hs hb
  refine forU8_inv (fun s => SameGeometry d s) _ _ ?_ _ _ s s1 hs hb
  intro j s2 s3 hs2 hb2
  exact hs2.trans (pixel_sameGeometry s2 s3 _ _ _ hb2)

theorem draw_char_sameGeometry (font : Nat → Nat) (d d1 : ssd1306_t) (c x y : Nat)
    (h : ssd1306_draw_char font d c x y = .ok d1) : SameGeometry d d1 := by
  unfold ssd1306_draw_char at h
  simp only at h
  split at h
  · exact draw_char_loops_sameGeometry font d d1 _ _ _ h
  · split at h
    · exact draw_char_loops_sameGeometry font d d1 _ _ _ h
    · split at h
      · exact draw_char_loops_sameGeometry font d d1 _ _ _ h
      · cases h; exact SameGeometry.refl _

/-- On one line the loop and the glyph-by-glyph run give the same result,
fault or state, whatever the height of the display. -/
theorem draw_string_loop_line_eq (font : Nat → Nat) (text : List Nat) :
    ∀ (d : ssd1306_t) (x y : Nat), d.width < 256 → (∀ c ∈ text, supported c) →
      x + 8 * text.length < d.width → y + 8 < d.height →
      draw_string_loop font d text x y =
        drawGlyphs font d
          ((List.range text.length).map (fun k => (text.getD k 0, x + 8 * k, y))) := by
  induction text with
  | nil =>
    intro d x y _ _ _ _
    rfl
  | cons c cs ih =>
    intro d x y hw hsup hx hy
    have hlen : (c :: cs).length = cs.length + 1 := rfl
    rw [hlen] at hx
    have hmap : (List.range (c :: cs).length).map
          (fun k => ((c :: cs).getD k 0, x + 8 * k, y))
        = (c, x, y) :: (List.range cs.length).map (fun k => (cs.getD k 0, x + 8 + 8 * k, y)) := by
      rw [hlen, List.range_succ_eq_map, List.map_cons, List.map_map]
      refine congrArg₂ _ (by simp) (List.map_congr_left ?_)
      intro k _
      simp only [Function.comp, List.getD_cons_succ, Prod.mk.injEq, true_and, and_true]
      omega
    rw [hmap, drawGlyphs_cons, draw_string_loop_cons font d c cs x y
      (hsup c (List.mem_cons_self _ _))]
    cases h1 : ssd1306_draw_char font d c x y with
    | error e => rfl
    | ok s1 =>
      have hg1 := draw_char_sameGeometry font d s1 c x y h1
      have hw1 : s1.width = d.width := hg1.1
      have hh1 : s1.height = d.height := hg1.2.1
      simp only [hw1, hh1]
      have hx8 : (x + 8) % 256 = x + 8 := Nat.mod_eq_of_lt (by omega)
      rw [hx8]
      cases cs with
      | nil =>
        have e : ∀ a b, draw_string_loop font s1 [] a b = .ok s1 :=
          fun a b => by rw [draw_string_loop]
        simp only [e, ite_self]
        rfl
      | cons c2 cs2 =>
        have hlen2 : (c2 :: cs2).length = cs2.length + 1 := rfl
        rw [hlen2] at hx
        have hnw : ¬ (x + 8 + 8 ≥ d.width) := by omega
        simp only [hnw, if_false]
        rw [if_neg (by omega)]
        exact ih s1 (x + 8) y (by omega) (fun c1 hc1 => hsup c1 (List.mem_cons_of_mem _ hc1))
          (by rw [hw1, hlen2]; omega) (by omega)

/-- Claim C9, amended: for a text of supported characters with no wrap due
(`x + 8 * n < width`) and a start row with `y + 8 < height` (strictly),
`ssd1306_draw_string` gives the result of `ssd1306_draw_char` applied in order,
the `k`-th character at `(x + 8 * k, y)`; on a 64-pixel-high display, where
all cells lie inside the buffer, that result is a state and not a fault.  For
`"AB"` at `(0, 0)` on a 128-wide display these are `'A'` at `x = 0` and `'B'`
at `x = 8`. -/
theorem draw_string_one_line (font : Nat → Nat) (d : ssd1306_t) (text : List Nat) (x y : Nat)
    (hwf : WF d) (hsup : ∀ c ∈ text, supported c)
    (hx : x + 8 * text.length < d.width) (hy : y + 8 < d.height) :
    ssd1306_draw_string font d text x y =
        drawGlyphs font d
          ((List.range text.length).map (fun k => (text.getD k 0, x + 8 * k, y))) ∧
      (d.height = 64 → ∃ d1, ssd1306_draw_string font d text x y = .ok d1) := by
  have hw : d.width < 256 := hwf.1
  have hht : d.height < 256 := hwf.2.1
  unfold ssd1306_draw_string
  rw [Nat.mod_eq_of_lt (show x < 256 by omega), Nat.mod_eq_of_lt (show y < 256 by omega)]
  refine ⟨draw_string_loop_line_eq font text d x y hw hsup hx hy, ?_⟩
  intro hh
  obtain ⟨d1, h1, -⟩ := draw_string_loop_line font text d x y hwf hh hsup hx (by omega)
  exact ⟨d1, h1⟩

theorem draw_string_one_line_witness :
    (WF demo ∧ (∀ c ∈ [65, 66], supported c) ∧
      0 + 8 * [65, 66].length < demo.width ∧ 0 + 8 < demo.height) ∧
    ssd1306_draw_string testFont demo [65, 66] 0 0 =
        drawGlyphs testFont demo
          ((List.range [65, 66].length).map (fun k => ([65, 66].getD k 0, 0 + 8 * k, 0))) ∧
      (demo.height = 64 → ∃ d1, ssd1306_draw_string testFont demo [65, 66] 0 0 = .ok d1) :=
  ⟨⟨init_WF _ _ _ _ _ _, by decide, by decide, by decide⟩,
    draw_string_one_line testFont demo [65, 66] 0 0 (init_WF _ _ _ _ _ _) (by decide)
      (by decide) (by decide)⟩

/-- Claim C9 as stated fails on the last text row: with `y + 8 = height` the
loop stops after the first character, so `'B'` of `"AB"` is never drawn. -/
theorem draw_string_last_row_stops :
    (WF small ∧ small.height = 64 ∧ (∀ c ∈ [65, 66], supported c) ∧
      0 + 8 * [65, 66].length < small.width ∧ 56 + 8 ≤ small.height) ∧
    ssd1306_draw_string testFont small [65, 66] 0 56
      ≠ drawGlyphs testFont small [(65, 0, 56), (66, 8, 56)] ∧
    ssd1306_draw_string testFont small [65, 66] 0 56
      = drawGlyphs testFont small [(65, 0, 56)] := by
  refine ⟨⟨init_WF _ _ _ _ _ _, by decide, by decide, by decide, by decide⟩, ?_, ?_⟩
  · decide
  · decide

/-- Claim C10, amended: on a display of width 16 and height 64 a string of
three supported characters started at `(0, 0)` wraps after every glyph: the
glyphs are drawn at `(0, 0)`, `(0, 8)` and `(0, 16)`. -/
theorem draw_string_narrow (font : Nat → Nat) (d : ssd1306_t) (c1 c2 c3 : Nat) (hwf : WF d)
    (hw : d.width = 16) (hh : d.height = 64) (h1 : supported c1) (h2 : supported c2)
    (h3 : supported c3) :
    ∃ d1, ssd1306_draw_string font d [c1, c2, c3] 0 0 = .ok d1 ∧
      drawGlyphs font d [(c1, 0, 0), (c2, 0, 8), (c3, 0, 16)] = .ok d1 := by
  obtain ⟨s1, e1, wf1, g1⟩ := draw_char_ok font d c1 0 0 hwf hh h1 (by omega) (by omega)
  have hw1 : s1.width = 16 := by rw [g1.1, hw]
  have hh1 : s1.height = 64 := by rw [g1.2.1, hh]
  obtain ⟨s2, e2, wf2, g2⟩ := draw_char_ok font s1 c2 0 8 wf1 hh1 h2 (by omega) (by omega)
  have hw2 : s2.width = 16 := by rw [g2.1, hw1]
  have hh2 : s2.height = 64 := by rw [g2.2.1, hh1]
  obtain ⟨s3, e3, wf3, g3⟩ := draw_char_ok font s2 c3 0 16 wf2 hh2 h3 (by omega) (by omega)
  have hw3 : s3.width = 16 := by rw [g3.1, hw2]
  have hh3 : s3.height = 64 := by rw [g3.2.1, hh2]
  refine ⟨s3, ?_, ?_⟩
  · unfold ssd1306_draw_string
    rw [draw_string_loop_cons font d c1 _ _ _ h1]
    simp only [Nat.zero_mod, e1, hw1, hh1]
    norm_num
    rw [draw_string_loop_cons font s1 c2 _ _ _ h2]
    simp only [e2, hw2, hh2]
    norm_num
    rw [draw_string_loop_cons font s2 c3 _ _ _ h3]
    simp only [e3, hw3, hh3]
    norm_num
    rw [draw_string_loop]
  · rw [drawGlyphs_cons]
    simp only [e1]
    rw [drawGlyphs_cons]
    simp only [e2]
    rw [drawGlyphs_cons]
    simp only [e3]
    rfl

theorem draw_string_narrow_witness :
    (WF narrow ∧ narrow.width = 16 ∧ narrow.height = 64 ∧ supported 65 ∧ supported 66 ∧
      supported 67) ∧
    ∃ d1, ssd1306_draw_string testFont narrow [65, 66, 67] 0 0 = .ok d1 ∧
      drawGlyphs testFont narrow [(65, 0, 0), (66, 0, 8), (67, 0, 16)] = .ok d1 :=
  ⟨⟨init_WF _ _ _ _ _ _, by decide, by decide, by decide, by decide, by decide⟩,
    draw_string_narrow testFont narrow 65 66 67 (init_WF _ _ _ _ _ _) (by decide) (by decide)
      (by decide) (by decide) (by decide)⟩

/-- Claim C10 as stated fails: on the 16-wide display the second glyph of
`"ABC"` is not drawn at `(8, 0)` and the third not at `(0, 8)`. -/
theorem draw_string_narrow_not_as_claimed :
    ssd1306_draw_string testFont narrow [65, 66, 67] 0 0
      ≠ drawGlyphs testFont narrow [(65, 0, 0), (66, 8, 0), (67, 0, 8)] := by
  decide

/-! ## Byte 0 of the frame buffer -/

theorem pixel_byte0 (d d1 : ssd1306_t) (x y : Nat) (v : Bool)
    (h : ssd1306_pixel d x y v = .ok d1) : d1.ram_buffer[0]? = d.ram_buffer[0]? := by
  have hx : x % 256 < 256 := Nat.mod_lt _ (by norm_num)
  have hy : y % 256 < 256 := Nat.mod_lt _ (by norm_num)
  have hne : (((y % 256) >>> 3) + ((x % 256) <<< 3) + 1) % 65536 ≠ 0 := by
    rw [Nat.shiftRight_eq_div_pow, Nat.shiftLeft_eq]
    norm_num
    omega
  unfold ssd1306_pixel at h
  simp only at h
  split at h
  · cases h
  · split at h <;> (cases h; simp only; rw [List.getElem?_set_ne hne])

theorem pixel_pair_byte0 (d d1 : ssd1306_t) (x y x2 y2 : Nat) (v : Bool)
    (h : (match ssd1306_pixel d x y v with
      | .ok s1 => ssd1306_pixel s1 x2 y2 v
      | .error e => .error e) = .ok d1) : d1.ram_buffer[0]? = d.ram_buffer[0]? := by
  cases hp : ssd1306_pixel d x y v with
  | error e => rw [hp] at h; cases h
  | ok s1 =>
    rw [hp] at h
    rw [pixel_byte0 s1 d1 _ _ _ h, pixel_byte0 d s1 _ _ _ hp]

theorem fill_byte0 (d d1 : ssd1306_t) (v : Bool) (h : ssd1306_fill d v = .ok d1) :
    d1.ram_buffer[0]? = d.ram_buffer[0]? := by
  unfold ssd1306_fill at h
  refine forU8_inv (fun s => s.ram_buffer[0]? = d.ram_buffer[0]?) _ _ ?_ _ _ d d1 rfl h
  intro y s s1 hs hb
  refine forU8_inv (fun s => s.ram_buffer[0]? = d.ram_buffer[0]?) _ _ ?_ _ _ s s1 hs hb
  intro x s2 s3 hs2 hb2
  rw [pixel_byte0 s2 s3 _ _ _ hb2, hs2]

theorem rect_byte0 (fuel : Nat) (d d1 : ssd1306_t) (top left w h : Nat) (v fill : Bool)
    (hr : ssd1306_rect fuel d top left w h v fill = .ok d1) :
    d1.ram_buffer[0]? = d.ram_buffer[0]? := by
  unfold ssd1306_rect at hr
  simp only at hr
  split at hr
  · cases hr
  · rename_i s1 h1
    have b1 : s1.ram_buffer[0]? = d.ram_buffer[0]? := by
      refine forU8_inv (fun s => s.ram_buffer[0]? = d.ram_buffer[0]?) _ _ ?_ _ _ d s1 rfl h1
      intro x s s2 hs hb
      rw [pixel_pair_byte0 s s2 _ _ _ _ _ hb, hs]
    split at hr
    · cases hr
    · rename_i s2 h2
      have b2 : s2.ram_buffer[0]? = d.ram_buffer[0]? := by
        refine forU8_inv (fun s => s.ram_buffer[0]? = d.ram_buffer[0]?) _ _ ?_ _ _ s1 s2 b1 h2
        intro x s s3 hs hb
        rw [pixel_pair_byte0 s s3 _ _ _ _ _ hb, hs]
      split at hr
      · refine forU8_inv (fun s => s.ram_buffer[0]? = d.ram_buffer[0]?) _ _ ?_ _ _ s2 d1 b2 hr
        intro x s s3 hs hb
        refine forU8_inv (fun s => s.ram_buffer[0]? = d.ram_buffer[0]?) _ _ ?_ _ _ s s3 hs hb
        intro y s4 s5 hs4 hb4
        rw [pixel_byte0 s4 s5 _ _ _ hb4, hs4]
      · cases hr
        exact b2

theorem draw_char_loops_byte0 (font : Nat → Nat) (d d1 : ssd1306_t) (index x y : Nat)
    (h : draw_char_loops font d index x y = .ok d1) :
    d1.ram_buffer[0]? = d.ram_buffer[0]? := by
  unfold draw_char_loops at h
  refine forU8_inv (fun s => s.ram_buffer[0]? = d.ram_buffer[0]?) _ _ ?_ _ _ d d1 rfl h
  intro i s s1 hs hb
  refine forU8_inv (fun s => s.ram_buffer[0]? = d.ram_buffer[0]?) _ _ ?_ _ _ s s1 hs hb
  intro j s2 s3 hs2 hb2
  rw [pixel_byte0 s2 s3 _ _ _ hb2, hs2]

theorem draw_char_byte0 (font : Nat → Nat) (d d1 : ssd1306_t) (c x y : Nat)
    (h : ssd1306_draw_char font d c x y = .ok d1) :
    d1.ram_buffer[0]? = d.ram_buffer[0]? := by
  unfold ssd1306_draw_char at h
  simp only at h
  split at h
  · exact draw_char_loops_byte0 font d d1 _ _ _ h
  · split at h
    · exact draw_char_loops_byte0 font d d1 _ _ _ h
    · split at h
      · exact draw_char_loops_byte0 font d d1 _ _ _ h
      · cases h; rfl

theorem draw_string_loop_byte0 (font : Nat → Nat) (str : List Nat) :
    ∀ (d d1 : ssd1306_t) (x y : Nat), draw_string_loop font d str x y = .ok d1 →
      d1.ram_buffer[0]? = d.ram_buffer[0]? := by
  induction str with
  | nil =>
    intro d d1 x y h
    rw [draw_string_loop] at h
    cases h; rfl
  | cons c cs ih =>
    intro d d1 x y h
    rw [draw_string_loop] at h
    split at h
    · cases h; rfl
    · split at h
      · cases h
      · rename_i s1 hc
        have b1 := draw_char_byte0 font d s1 c x y hc
        simp only at h
        split_ifs at h <;> first | (cases h; exact b1) | (rw [ih s1 d1 _ _ h, b1])

theorem run_byte0 (font : Nat → Nat) (fuel : Nat) (d d1 : ssd1306_t) (call : DrawCall)
    (h : call.run font fuel d = .ok d1) : d1.ram_buffer[0]? = d.ram_buffer[0]? := by
  cases call with
  | pixel x y v => exact pixel_byte0 d d1 x y v h
  | fill v => exact fill_byte0 d d1 v h
  | rect top left w ht v f => exact rect_byte0 fuel d d1 top left w ht v f h
  | char c x y => exact draw_char_byte0 font d d1 c x y h
  | string str x y =>
    simp only [DrawCall.run, ssd1306_draw_string] at h
    exact draw_string_loop_byte0 font str d d1 _ _ h

theorem runCalls_byte0 (font : Nat → Nat) (fuel : Nat) (calls : List DrawCall) :
    ∀ (d d1 : ssd1306_t), runCalls font fuel d calls = .ok d1 →
      d1.ram_buffer[0]? = d.ram_buffer[0]? := by
  induction calls with
  | nil =>
    intro d d1 h
    cases h; rfl
  | cons call calls ih =>
    intro d d1 h
    unfold runCalls at h
    rw [List.foldlM_cons] at h
    cases hc : call.run font fuel d with
    | error e => rw [hc] at h; cases h
    | ok s1 =>
      rw [hc] at h
      rw [ih s1 d1 h, run_byte0 font fuel d s1 call hc]

theorem init_byte0 (ssd : ssd1306_t) (width height : Nat) (ev : Bool) (address i2c : Nat) :
    (ssd1306_init ssd width height ev address i2c).ram_buffer[0]? = some 0x40 := by
  unfold ssd1306_init
  simp

/-- Claim C4: byte 0 of the frame buffer is `0x40` after `ssd1306_init`, and
it is still `0x40` in the state any sequence of drawing calls (pixel, fill,
rect, draw_char, draw_string with arbitrary arguments, any font table, any
fuel) returns when run from there. -/
theorem byte0_marker_kept (font : Nat → Nat) (fuel : Nat) (ssd : ssd1306_t)
    (width height : Nat) (ev : Bool) (address i2c : Nat) (calls : List DrawCall)
    (d1 : ssd1306_t)
    (h : runCalls font fuel (ssd1306_init ssd width height ev address i2c) calls = .ok d1) :
    (ssd1306_init ssd width height ev address i2c).ram_buffer[0]? = some 0x40 ∧
      d1.ram_buffer[0]? = some 0x40 := by
  refine ⟨init_byte0 _ _ _ _ _ _, ?_⟩
  rw [runCalls_byte0 font fuel calls _ d1 h]
  exact init_byte0 _ _ _ _ _ _

theorem byte0_marker_kept_witness :
    ∃ d1, runCalls testFont 300 narrow sampleCalls = .ok d1 ∧
      narrow.ram_buffer[0]? = some 0x40 ∧ d1.ram_buffer[0]? = some 0x40 := by
  cases h : runCalls testFont 300 narrow sampleCalls with
  | error e => cases e <;> exact absurd h (by decide)
  | ok d1 =>
    exact ⟨d1, rfl, byte0_marker_kept testFont 300 _ 16 64 false 0x3C 1 sampleCalls d1 h⟩

/-! ## `ssd1306_pixel` -/

theorem byte_ext (a b : Nat) (ha : a < 256) (hb : b < 256)
    (h : ∀ k, k < 8 → a.testBit k = b.testBit k) : a = b := by
  apply Nat.eq_of_testBit_eq
  intro k
  by_cases hk : k < 8
  · exact h k hk
  · have h256 : (256 : Nat) ≤ 2 ^ k := by
      calc (256 : Nat) = 2 ^ 8 := by norm_num
        _ ≤ 2 ^ k := Nat.pow_le_pow_right (by norm_num) (by omega)
    rw [Nat.testBit_lt_two_pow (lt_of_lt_of_le ha h256),
      Nat.testBit_lt_two_pow (lt_of_lt_of_le hb h256)]

theorem list_set_self (l : List Nat) (i : Nat) (h : i < l.length) :
    l.set i (l.getD i 0) = l := by
  apply List.ext_getElem?
  intro j
  rw [List.getElem?_set]
  by_cases e : i = j
  · subst e
    simp [h, List.getD_eq_getElem?_getD, List.getElem?_eq_getElem h]
  · simp [e]

theorem storedByte_on_off (b p : Nat) (hp : p < 8) :
    storedByte (storedByte b p true) p false = storedByte b p false := by
  apply byte_ext _ _ (storedByte_lt _ _ _ hp) (storedByte_lt _ _ _ hp)
  intro k hk
  rw [storedByte_bit _ _ _ _ hk, storedByte_bit _ _ _ _ hk, storedByte_bit _ _ _ _ hk]
  by_cases h : k = p <;> simp [h]

theorem storedByte_off_eq (b p : Nat) (hb : b < 256) (hp : p < 8) :
    storedByte b p false = b ↔ b.testBit p = false := by
  constructor
  · intro h
    rw [← h, storedByte_bit _ _ _ _ hp]
    simp
  · intro h
    apply byte_ext _ _ (storedByte_lt _ _ _ hp) hb
    intro k hk
    rw [storedByte_bit _ _ _ _ hk]
    by_cases e : k = p
    · subst e; simp [h]
    · simp [e]

/-- Claim C2, amended: for a well-formed state and `x < width`, `y < height`
whose byte `(y >> 3) + (x << 3) + 1` lies inside the frame buffer,
`ssd1306_pixel(x, y, true)` followed by `ssd1306_pixel(x, y, false)` succeeds
and gives the state that `ssd1306_pixel(x, y, false)` alone gives; that state
is the one before the two calls exactly when the addressed bit was clear. -/
theorem pixel_on_then_off (d : ssd1306_t) (x y : Nat) (hwf : WF d) (hx : x < d.width)
    (hy : y < d.height) (hin : (y >>> 3) + (x <<< 3) + 1 < d.bufsize) :
    ∃ d1, (ssd1306_pixel d x y true >>= fun s => ssd1306_pixel s x y false) = .ok d1 ∧
      ssd1306_pixel d x y false = .ok d1 ∧
      (d1 = d ↔ bitAt d.ram_buffer ((y >>> 3) + (x <<< 3) + 1) (y &&& 7) = false) := by
  obtain ⟨hw, hht, -, -, hl, hbytes⟩ := hwf
  have hx256 : x < 256 := by omega
  have hy256 : y < 256 := by omega
  have hidx : (y >>> 3) + (x <<< 3) + 1 = y / 8 + 8 * x + 1 := by
    rw [shr3, Nat.shiftLeft_eq]; omega
  rw [hidx] at hin ⊢
  rw [and7]
  rw [← hl] at hin
  have hp : y % 8 < 8 := Nat.mod_lt _ (by norm_num)
  have h1 := pixel_ok d x y true hx256 hy256 hin
  have h2 := pixel_ok d x y false hx256 hy256 hin
  refine ⟨_, ?_, h2, ?_⟩
  · rw [h1]
    show ssd1306_pixel _ x y false = _
    rw [pixel_ok _ x y false hx256 hy256 (by simpa using hin)]
    simp only [List.set_set, List.getD_eq_getElem?_getD, List.getElem?_set, if_true,
      List.length_set, hin, Option.getD_some]
    rw [storedByte_on_off _ _ hp]
  · have hb : d.ram_buffer.getD (y / 8 + 8 * x + 1) 0 < 256 := by
      rw [List.getD_eq_getElem?_getD, List.getElem?_eq_getElem hin, Option.getD_some]
      exact hbytes _ (List.getElem_mem hin)
    unfold bitAt
    rw [← storedByte_off_eq _ _ hb hp]
    constructor
    · intro h
      have h3 := congrArg (fun s => s.ram_buffer.getD (y / 8 + 8 * x + 1) 0) h
      simp only [List.getD_eq_getElem?_getD, List.getElem?_set, if_true, hin,
        Option.getD_some] at h3
      simpa [List.getD_eq_getElem?_getD] using h3
    · intro h
      rw [h]
      rw [list_set_self _ _ hin]

theorem pixel_on_then_off_witness :
    (WF demo ∧ 5 < demo.width ∧ 9 < demo.height ∧ (9 >>> 3) + (5 <<< 3) + 1 < demo.bufsize) ∧
    ∃ d1, (ssd1306_pixel demo 5 9 true >>= fun s => ssd1306_pixel s 5 9 false) = .ok d1 ∧
      ssd1306_pixel demo 5 9 false = .ok d1 ∧
      (d1 = demo ↔ bitAt demo.ram_buffer ((9 >>> 3) + (5 <<< 3) + 1) (9 &&& 7) = false) :=
  ⟨⟨init_WF _ _ _ _ _ _, by decide, by decide, by decide⟩,
    pixel_on_then_off demo 5 9 (init_WF _ _ _ _ _ _) (by decide) (by decide) (by decide)⟩

/-- Claim C2 as stated fails in two ways: when the pixel was on before, the
two calls leave it off (here `(0, 0)` on a 24 x 64 display); and on a display
that is not 64 pixels high the addressed byte can lie outside the buffer (here
`(127, 31)` on a 128 x 32 display). -/
theorem pixel_on_then_off_not_identity :
    (WF smallOn ∧ 0 < smallOn.width ∧ 0 < smallOn.height ∧
      ssd1306_pixel small 0 0 true = .ok smallOn ∧
      (ssd1306_pixel smallOn 0 0 true >>= fun s => ssd1306_pixel s 0 0 false) ≠ .ok smallOn) ∧
    (WF d32 ∧ 127 < d32.width ∧ 31 < d32.height ∧
      (ssd1306_pixel d32 127 31 true >>= fun s => ssd1306_pixel s 127 31 false) ≠ .ok d32) := by
  refine ⟨⟨by decide, by decide, by decide, by decide, by decide⟩,
    ⟨init_WF _ _ _ _ _ _, by decide, by decide, by decide⟩⟩

/-- Claim C1 on a 128 x 32 display (`pages = 4`): `ssd1306_pixel(1, 0, true)`
sets bit 0 of byte 9, not of byte `(0 >> 3) + 1 * pages + 1 = 5`, so reading
pixel `(1, 0)` with the addressing of the data model still gives `false`; and
`ssd1306_pixel(127, 31, true)` addresses byte 1020 of a 513-byte buffer. -/
theorem pixel_ignores_page_count :
    (d32.height % 8 = 0 ∧ d32.pages = d32.height / 8 ∧ d32.pages = 4 ∧ d32.bufsize = 513 ∧
      1 < d32.width ∧ 0 < d32.height) ∧
    (∃ d1, ssd1306_pixel d32 1 0 true = .ok d1 ∧ readPixel d1 1 0 = false ∧
      bitAt d1.ram_buffer 5 0 = false ∧ bitAt d1.ram_buffer 9 0 = true ∧
      bitAt d32.ram_buffer 9 0 = false) ∧
    ssd1306_pixel d32 127 31 true = .error .outOfBounds := by
  refine ⟨by decide, ⟨_, pixel_ok d32 1 0 true (by decide) (by decide) (by decide), ?_, ?_, ?_, ?_⟩,
    ?_⟩ <;> decide

/-! ## Witnesses on the initialised 128 x 64 display -/

/-- A freshly initialised display shows no pixel. -/
theorem init_reads_false (ssd : ssd1306_t) (width height : Nat) (ev : Bool) (address i2c : Nat)
    (x y : Nat) : readPixel (ssd1306_init ssd width height ev address i2c) x y = false := by
  unfold readPixel bitAt ssd1306_init
  simp only [List.getD_eq_getElem?_getD, List.getElem?_set, List.getElem?_replicate]
  have h0 : ¬ 0 = (y >>> 3) + x * (height % 256 / 8) + 1 := by omega
  rw [if_neg h0]
  split <;> simp

theorem rect_outline_perimeter_witness :
    ∃ d1, ssd1306_rect 256 demo 0 0 10 5 true false = .ok d1 ∧
      ((Finset.range demo.width ×ˢ Finset.range 64).filter
        (fun p => readPixel d1 p.1 p.2 = true)).card = 26 := by
  obtain ⟨d1, h1, -, h26⟩ := rect_outline_perimeter 256 demo 0 0 10 5 (init_WF _ _ _ _ _ _)
    (by decide) (by decide) (by decide) (by decide) (by decide) (by decide)
    (fun x y _ _ => init_reads_false _ _ _ _ _ _ x y)
  exact ⟨d1, h1, h26 rfl rfl rfl rfl⟩

theorem rect_filled_region_witness :
    ∃ d1, ssd1306_rect 256 demo 20 30 40 10 true true = .ok d1 ∧
      (∀ x y, 30 ≤ x → x < 30 + 40 → 20 ≤ y → y < 20 + 10 → readPixel d1 x y = true) ∧
      (∀ x y, x < demo.width → y < demo.height →
        ¬ (30 ≤ x ∧ x < 30 + 40 ∧ 20 ≤ y ∧ y < 20 + 10) →
        readPixel d1 x y = readPixel demo x y) :=
  rect_filled_region 256 demo 20 30 40 10 true (init_WF _ _ _ _ _ _) (by decide) (by decide)
    (by decide) (by decide) (by decide) (by decide)

/-! ## Properties kept by every drawing call -/

/-- A property of the state that `ssd1306_pixel` keeps is kept by each of the
five drawing functions. -/
theorem run_preserves (P : ssd1306_t → Prop)
    (hpix : ∀ d x y v d1, P d → ssd1306_pixel d x y v = .ok d1 → P d1)
    (font : Nat → Nat) (fuel : Nat) (call : DrawCall) :
    ∀ (d d1 : ssd1306_t), P d → call.run font fuel d = .ok d1 → P d1 := by
  have hpair : ∀ (d d1 : ssd1306_t) (x y x2 y2 : Nat) (v : Bool), P d →
      (match ssd1306_pixel d x y v with
        | .ok s1 => ssd1306_pixel s1 x2 y2 v
        | .error e => .error e) = .ok d1 → P d1 := by
    intro d d1 x y x2 y2 v hd h
    cases hp : ssd1306_pixel d x y v with
    | error e => rw [hp] at h; cases h
    | ok s1 =>
      rw [hp] at h
      exact hpix s1 _ _ _ d1 (hpix d _ _ _ s1 hd hp) h
  have hloops : ∀ (d d1 : ssd1306_t) (index x y : Nat), P d →
      draw_char_loops font d index x y = .ok d1 → P d1 := by
    intro d d1 index x y hd h
    unfold draw_char_loops at h
    refine forU8_inv P _ _ ?_ _ _ d d1 hd h
    intro i s s1 hs hb
    refine forU8_inv P _ _ ?_ _ _ s s1 hs hb
    intro j s2 s3 hs2 hb2
    exact hpix s2 _ _ _ s3 hs2 hb2
  have hchar : ∀ (d d1 : ssd1306_t) (c x y : Nat), P d →
      ssd1306_draw_char font d c x y = .ok d1 → P d1 := by
    intro d d1 c x y hd h
    unfold ssd1306_draw_char at h
    simp only at h
    split at h
    · exact hloops d d1 _ _ _ hd h
    · split at h
      · exact hloops d d1 _ _ _ hd h
      · split at h
        · exact hloops d d1 _ _ _ hd h
        · cases h; exact hd
  have hstr : ∀ (str : List Nat) (d d1 : ssd1306_t) (x y : Nat), P d →
      draw_string_loop font d str x y = .ok d1 → P d1 := by
    intro str
    induction str with
    | nil =>
      intro d d1 x y hd h
      rw [draw_string_loop] at h
      cases h; exact hd
    | cons c cs ih =>
      intro d d1 x y hd h
      rw [draw_string_loop] at h
      split at h
      · cases h; exact hd
      · split at h
        · cases h
        · rename_i s1 hc
          have b1 := hchar d s1 c x y hd hc
          simp only at h
          split_ifs at h <;> first | (cases h; exact b1) | exact ih s1 d1 _ _ b1 h
  intro d d1 hd h
  cases call with
  | pixel x y v => exact hpix d x y v d1 hd h
  | fill v =>
    simp only [DrawCall.run, ssd1306_fill] at h
    refine forU8_inv P _ _ ?_ _ _ d d1 hd h
    intro y s s1 hs hb
    refine forU8_inv P _ _ ?_ _ _ s s1 hs hb
    intro x s2 s3 hs2 hb2
    exact hpix s2 _ _ _ s3 hs2 hb2
  | rect top left w ht v f =>
    simp only [DrawCall.run, ssd1306_rect] at h
    split at h
    · cases h
    · rename_i s1 h1
      have b1 : P s1 := by
        refine forU8_inv P _ _ ?_ _ _ d s1 hd h1
        intro x s s2 hs hb
        exact hpair s s2 _ _ _ _ _ hs hb
      split at h
      · cases h
      · rename_i s2 h2
        have b2 : P s2 := by
          refine forU8_inv P _ _ ?_ _ _ s1 s2 b1 h2
          intro x s s3 hs hb
          exact hpair s s3 _ _ _ _ _ hs hb
        split at h
        · refine forU8_inv P _ _ ?_ _ _ s2 d1 b2 h
          intro x s s3 hs hb
          refine forU8_inv P _ _ ?_ _ _ s s3 hs hb
          intro y s4 s5 hs4 hb4
          exact hpix s4 _ _ _ s5 hs4 hb4
        · cases h
          exact b2
  | char c x y => exact hchar d d1 c x y hd h
  | string str x y =>
    simp only [DrawCall.run, ssd1306_draw_string] at h
    exact hstr str d d1 _ _ hd h

theorem pixel_WF (d d1 : ssd1306_t) (x y : Nat) (v : Bool) (hwf : WF d)
    (h : ssd1306_pixel d x y v = .ok d1) : WF d1 := by
  obtain ⟨hw, hht, hp, hb, hl, hbytes⟩ := hwf
  have hp8 : (y % 256) &&& 0b111 < 8 := by
    have := and7 (y % 256)
    simp only [Nat.reduceAdd] at this ⊢
    rw [this]
    exact Nat.mod_lt _ (by norm_num)
  unfold ssd1306_pixel at h
  simp only at h
  split at h
  · cases h
  · split at h
    · cases h
      refine ⟨hw, hht, hp, hb, by simpa using hl, ?_⟩
      intro b hb1
      rcases List.mem_or_eq_of_mem_set hb1 with h2 | h2
      · exact hbytes b h2
      · rw [h2]; exact Nat.mod_lt _ (by norm_num)
    · cases h
      refine ⟨hw, hht, hp, hb, by simpa using hl, ?_⟩
      intro b hb1
      rcases List.mem_or_eq_of_mem_set hb1 with h2 | h2
      · exact hbytes b h2
      · rw [h2]; exact clear_lt _ _ hp8

theorem pixel_ready (d : ssd1306_t) (x y : Nat) (v : Bool) (d1 : ssd1306_t) (hr : Ready d)
    (h : ssd1306_pixel d x y v = .ok d1) : Ready d1 := by
  obtain ⟨hwf, hm, h0⟩ := hr
  refine ⟨pixel_WF d d1 x y v hwf h, ?_, ?_⟩
  · rw [(pixel_sameGeometry d d1 x y v h).2.2.2.2.2.2.1, hm]
  · rw [pixel_byte0 d d1 x y v h, h0]

theorem init_ready (ssd : ssd1306_t) (width height : Nat) (ev : Bool) (address i2c : Nat) :
    Ready (ssd1306_init ssd width height ev address i2c) :=
  ⟨init_WF _ _ _ _ _ _, rfl, init_byte0 _ _ _ _ _ _⟩

theorem command_fst (st : ssd1306_t × Bus) (c : Nat) :
    (ssd1306_command st c).1 = { st.1 with port_buffer := (st.1.port_buffer.1, c % 256) } := rfl

theorem command_snd (st : ssd1306_t × Bus) (c : Nat) :
    (ssd1306_command st c).2 =
      st.2 ++ [{ port := st.1.i2c_port, address := st.1.address,
                 bytes := [st.1.port_buffer.1, c % 256] }] := rfl

/-- A property of the display that `ssd1306_pixel` and `ssd1306_command` keep
is kept by every sequence of driver calls. -/
theorem runDriver_preserves (P : ssd1306_t → Prop)
    (hpix : ∀ d x y v d1, P d → ssd1306_pixel d x y v = .ok d1 → P d1)
    (hcmd : ∀ (st : ssd1306_t × Bus) c, P st.1 → P (ssd1306_command st c).1)
    (K : Header) (font : Nat → Nat) (fuel : Nat) (calls : List DriverCall) :
    ∀ (st st1 : ssd1306_t × Bus), P st.1 → runDriver K font fuel st calls = .ok st1 →
      P st1.1 := by
  have hstep : ∀ (call : DriverCall) (st st1 : ssd1306_t × Bus), P st.1 →
      call.run K font fuel st = .ok st1 → P st1.1 := by
    intro call st st1 h hr
    cases call with
    | draw c =>
      simp only [DriverCall.run] at hr
      split at hr
      · rename_i d hd
        cases hr
        exact run_preserves P hpix font fuel c st.1 d h hd
      · cases hr
    | command c =>
      simp only [DriverCall.run] at hr
      cases hr
      exact hcmd st c h
    | config =>
      simp only [DriverCall.run, ssd1306_config] at hr
      cases hr
      repeat (refine hcmd _ _ ?_)
      exact h
    | send_data =>
      simp only [DriverCall.run, ssd1306_send_data] at hr
      split at hr
      · cases hr
        simp only
        repeat (refine hcmd _ _ ?_)
        exact h
      · cases hr
  induction calls with
  | nil =>
    intro st st1 h hr
    cases hr; exact h
  | cons call calls ih =>
    intro st st1 h hr
    unfold runDriver at hr
    rw [List.foldlM_cons] at hr
    cases hc : call.run K font fuel st with
    | error e => rw [hc] at hr; cases hr
    | ok s1 =>
      rw [hc] at hr
      exact ih s1 st1 (hstep call st s1 h hc) hr

/-- Every state the driver reaches after `ssd1306_init` is ready and still
records the geometry, address and bus handle given to `ssd1306_init`. -/
theorem runDriver_from_init (K : Header) (font : Nat → Nat) (fuel : Nat) (ssd : ssd1306_t)
    (width height : Nat) (ev : Bool) (address i2c : Nat) (bus0 : Bus)
    (calls : List DriverCall) (st1 : ssd1306_t × Bus)
    (h : runDriver K font fuel (ssd1306_init ssd width height ev address i2c, bus0) calls
      = .ok st1) :
    Ready st1.1 ∧ st1.1.width = width % 256 ∧ st1.1.height = height % 256 ∧
      st1.1.address = address % 256 ∧ st1.1.i2c_port = i2c := by
  refine runDriver_preserves
    (fun s => Ready s ∧ s.width = width % 256 ∧ s.height = height % 256 ∧
      s.address = address % 256 ∧ s.i2c_port = i2c) ?_ ?_ K font fuel calls
    (ssd1306_init ssd width height ev address i2c, bus0) st1 ?_ h
  · intro d x y v d1 hd hp
    obtain ⟨hr, h1, h2, h3, h4⟩ := hd
    obtain ⟨g1, g2, -, g4, g5, -⟩ := pixel_sameGeometry d d1 x y v hp
    exact ⟨pixel_ready d x y v d1 hr hp, g1.trans h1, g2.trans h2, g4.trans h3, g5.trans h4⟩
  · intro st c hd
    exact hd
  · exact ⟨init_ready ssd width height ev address i2c, rfl, rfl, rfl, rfl⟩


/-! ## The bus protocol -/

/-- Claim C13: in every state `(d, bus)` the driver reaches after
`ssd1306_init`, `ssd1306_command` with a command byte `c` appends exactly one
transfer to the trace, the two bytes `[0x80, c]` written to the address (and
bus handle) recorded in the display, which is the address given to
`ssd1306_init`; the frame buffer is unchanged. -/
theorem command_one_transfer (K : Header) (font : Nat → Nat) (fuel : Nat) (ssd : ssd1306_t)
    (width height : Nat) (ev : Bool) (address i2c : Nat) (bus0 : Bus)
    (calls : List DriverCall) (d : ssd1306_t) (bus : Bus) (c : Nat) (hc : c < 256)
    (h : runDriver K font fuel (ssd1306_init ssd width height ev address i2c, bus0) calls
      = .ok (d, bus)) :
    (ssd1306_command (d, bus) c).2
        = bus ++ [{ port := i2c, address := address % 256, bytes := [0x80, c] }] ∧
      d.address = address % 256 ∧
      (ssd1306_command (d, bus) c).1.ram_buffer = d.ram_buffer := by
  obtain ⟨⟨-, hm, -⟩, -, -, ha, hi⟩ :=
    runDriver_from_init K font fuel ssd width height ev address i2c bus0 calls (d, bus) h
  simp only at hm ha hi
  refine ⟨?_, ha, rfl⟩
  rw [command_snd]
  simp only [hm, ha, hi, Nat.mod_eq_of_lt hc]

/-- Claim C14: for 8-bit `width`, `height` and `address`, `ssd1306_init` yields
a display whose frame buffer has `(height / 8) * width + 1` bytes, byte 0 being
`0x40` and all others zero (every pixel reads `false`), whose command marker is
`0x80`, and which records `width`, `height`, `pages = height / 8`, the address
and the bus handle given. -/
theorem init_state (ssd : ssd1306_t) (width height : Nat) (ev : Bool) (address i2c : Nat)
    (hw : width < 256) (hh : height < 256) (ha : address < 256) :
    (ssd1306_init ssd width height ev address i2c).ram_buffer.length
        = (height / 8) * width + 1 ∧
      (ssd1306_init ssd width height ev address i2c).bufsize = (height / 8) * width + 1 ∧
      (ssd1306_init ssd width height ev address i2c).ram_buffer
        = 0x40 :: List.replicate ((height / 8) * width) 0 ∧
      (∀ x y, readPixel (ssd1306_init ssd width height ev address i2c) x y = false) ∧
      (ssd1306_init ssd width height ev address i2c).port_buffer.1 = 0x80 ∧
      (ssd1306_init ssd width height ev address i2c).width = width ∧
      (ssd1306_init ssd width height ev address i2c).height = height ∧
      (ssd1306_init ssd width height ev address i2c).pages = height / 8 ∧
      (ssd1306_init ssd width height ev address i2c).address = address ∧
      (ssd1306_init ssd width height ev address i2c).i2c_port = i2c := by
  refine ⟨?_, ?_, ?_, fun x y => init_reads_false _ _ _ _ _ _ x y, rfl, ?_, ?_, ?_, ?_, rfl⟩
  · simp [ssd1306_init, Nat.mod_eq_of_lt hw, Nat.mod_eq_of_lt hh]
  · simp [ssd1306_init, Nat.mod_eq_of_lt hw, Nat.mod_eq_of_lt hh]
  · simp only [ssd1306_init, Nat.mod_eq_of_lt hw, Nat.mod_eq_of_lt hh]
    rw [List.replicate_succ, List.set_cons_zero]
  · exact Nat.mod_eq_of_lt hw
  · exact Nat.mod_eq_of_lt hh
  · simp [ssd1306_init, Nat.mod_eq_of_lt hh]
  · exact Nat.mod_eq_of_lt ha

theorem init_state_witness :
    (128 < 256 ∧ 64 < 256 ∧ 0x3C < 256) ∧
      demo.ram_buffer.length = (64 / 8) * 128 + 1 ∧
      demo.bufsize = (64 / 8) * 128 + 1 ∧
      demo.ram_buffer = 0x40 :: List.replicate ((64 / 8) * 128) 0 ∧
      (∀ x y, readPixel demo x y = false) ∧
      demo.port_buffer.1 = 0x80 ∧ demo.width = 128 ∧ demo.height = 64 ∧
      demo.pages = 64 / 8 ∧ demo.address = 0x3C ∧ demo.i2c_port = 1 :=
  ⟨by decide, init_state _ 128 64 false 0x3C 1 (by decide) (by decide) (by decide)⟩

theorem command_one_transfer_witness :
    ∃ d bus, runDriver stdHeader testFont 300 (narrow, []) sampleDriverCalls = .ok (d, bus) ∧
      (ssd1306_command (d, bus) 0xAF).2
        = bus ++ [{ port := 1, address := 0x3C % 256, bytes := [0x80, 0xAF] }] ∧
      d.address = 0x3C % 256 ∧
      (ssd1306_command (d, bus) 0xAF).1.ram_buffer = d.ram_buffer := by
  cases h : runDriver stdHeader testFont 300 (narrow, []) sampleDriverCalls with
  | error e => cases e <;> exact absurd h (by decide)
  | ok st =>
    exact ⟨st.1, st.2, rfl, command_one_transfer stdHeader testFont 300 _ 16 64 false 0x3C 1 []
      sampleDriverCalls st.1 st.2 0xAF (by decide) h⟩

theorem u8_lt (i : Int) : u8 i < 256 := by
  unfold u8
  omega

theorem command_pair (d : ssd1306_t) (bus : Bus) (c : Nat) (hc : c < 256)
    (hm : d.port_buffer.1 = 0x80) :
    ssd1306_command (d, bus) c
      = ({ d with port_buffer := (0x80, c) }, bus ++ [commandTransfer d c]) := by
  unfold ssd1306_command i2c_write_blocking commandTransfer
  simp [hm, Nat.mod_eq_of_lt hc]

/-- Claim C12: in every state `(d, bus)` the driver reaches after
`ssd1306_init` (opcode macros being bytes), `ssd1306_send_data` succeeds and
appends exactly seven transfers: the commands `SET_COL_ADDR`, `0`,
`width - 1`, `SET_PAGE_ADDR`, `0`, `pages - 1` (the two differences as
`uint8_t`), each as `[0x80, byte]`, then one data transfer with the whole
frame buffer, which has `pages * width + 1` bytes and starts with `0x40`.
The frame buffer is unchanged. -/
theorem send_data_transfers (K : Header) (font : Nat → Nat) (fuel : Nat) (ssd : ssd1306_t)
    (width height : Nat) (ev : Bool) (address i2c : Nat) (bus0 : Bus)
    (calls : List DriverCall) (d : ssd1306_t) (bus : Bus) (hK : K.IsBytes)
    (h : runDriver K font fuel (ssd1306_init ssd width height ev address i2c, bus0) calls
      = .ok (d, bus)) :
    ∃ d1, ssd1306_send_data K (d, bus) = .ok (d1, bus ++
        [commandTransfer d K.SET_COL_ADDR, commandTransfer d 0,
         commandTransfer d (u8 ((d.width : Int) - 1)),
         commandTransfer d K.SET_PAGE_ADDR, commandTransfer d 0,
         commandTransfer d (u8 ((d.pages : Int) - 1)),
         { port := d.i2c_port, address := d.address, bytes := d.ram_buffer }]) ∧
      d1.ram_buffer = d.ram_buffer ∧
      d.ram_buffer.length = d.pages * d.width + 1 ∧
      d.ram_buffer[0]? = some 0x40 ∧
      (1 ≤ d.width → u8 ((d.width : Int) - 1) = d.width - 1) ∧
      (1 ≤ d.pages → u8 ((d.pages : Int) - 1) = d.pages - 1) := by
  obtain ⟨⟨hwf, hm, h0⟩, -⟩ :=
    runDriver_from_init K font fuel ssd width height ev address i2c bus0 calls (d, bus) h
  simp only at hwf hm h0
  obtain ⟨hw, hht, hp, hb, hl, -⟩ := hwf
  obtain ⟨-, -, -, -, -, k1, k2, -⟩ := hK
  have hlen : d.ram_buffer.length = d.pages * d.width + 1 := by rw [hl, hb]
  refine ⟨{ d with port_buffer := (0x80, u8 ((d.pages : Int) - 1)) }, ?_, rfl, hlen, h0, ?_, ?_⟩
  · unfold ssd1306_send_data
    simp only
    rw [command_pair d bus _ k1 hm]
    rw [command_pair _ _ 0 (by norm_num) rfl]
    rw [command_pair _ _ _ (u8_lt _) rfl]
    rw [command_pair _ _ _ k2 rfl]
    rw [command_pair _ _ 0 (by norm_num) rfl]
    rw [command_pair _ _ _ (u8_lt _) rfl]
    simp only [hl, le_refl, if_true, i2c_write_blocking, commandTransfer, List.append_assoc,
      List.cons_append, List.nil_append]
    rw [← hl, List.take_length]
  · intro h1
    exact u8_of_lt _ _ (by omega) (by omega)
  · intro h1
    have : d.pages < 256 := by omega
    exact u8_of_lt _ _ (by omega) (by omega)

theorem send_data_transfers_witness :
    ∃ d bus, runDriver stdHeader testFont 300 (narrow, []) sampleDriverCalls = .ok (d, bus) ∧
      ∃ d1, ssd1306_send_data stdHeader (d, bus) = .ok (d1, bus ++
        [commandTransfer d 0x21, commandTransfer d 0,
         commandTransfer d (u8 ((d.width : Int) - 1)),
         commandTransfer d 0x22, commandTransfer d 0,
         commandTransfer d (u8 ((d.pages : Int) - 1)),
         { port := d.i2c_port, address := d.address, bytes := d.ram_buffer }]) ∧
      d1.ram_buffer = d.ram_buffer ∧
      d.ram_buffer.length = d.pages * d.width + 1 ∧
      d.ram_buffer[0]? = some 0x40 ∧
      (1 ≤ d.width → u8 ((d.width : Int) - 1) = d.width - 1) ∧
      (1 ≤ d.pages → u8 ((d.pages : Int) - 1) = d.pages - 1) := by
  cases h : runDriver stdHeader testFont 300 (narrow, []) sampleDriverCalls with
  | error e => cases e <;> exact absurd h (by decide)
  | ok st =>
    exact ⟨st.1, st.2, rfl, send_data_transfers stdHeader testFont 300 _ 16 64 false 0x3C 1 []
      sampleDriverCalls st.1 st.2 (by decide) h⟩

theorem or_byte (a b : Nat) (ha : a < 256) (hb : b < 256) : (a ||| b) % 256 = a ||| b := by
  apply Nat.mod_eq_of_lt
  have h : (256 : Nat) = 2 ^ 8 := by norm_num
  rw [h] at ha hb ⊢
  exact Nat.or_lt_two_pow ha hb

/-- The transfers of `ssd1306_config` from a state with the command marker set. -/
theorem config_eq (K : Header) (d : ssd1306_t) (bus : Bus) (hK : K.IsBytes)
    (hm : d.port_buffer.1 = 0x80) :
    (ssd1306_config K (d, bus)).2 = bus ++ (configBytes K).map (commandTransfer d) ∧
      (ssd1306_config K (d, bus)).1.ram_buffer = d.ram_buffer := by
  obtain ⟨k1, k2, k3, k4, k5, k6, k7, k8, k9, k10, k11, k12, k13, k14, k15, k16, k17⟩ := hK
  have o1 : ( K.SET_DISP ||| 0x00) < 256 := by
    have := or_byte K.SET_DISP 0 k4 (by norm_num); omega
  have o2 : ( K.SET_DISP_START_LINE ||| 0x00) < 256 := by
    have := or_byte K.SET_DISP_START_LINE 0 k8 (by norm_num); omega
  have o3 : ( K.SET_SEG_REMAP ||| 0x01) < 256 := by
    have := or_byte K.SET_SEG_REMAP 1 k9 (by norm_num); omega
  have o4 : ( K.SET_COM_OUT_DIR ||| 0x08) < 256 := by
    have := or_byte K.SET_COM_OUT_DIR 8 k11 (by norm_num); omega
  have o5 : ( K.SET_DISP ||| 0x01) < 256 := by
    have := or_byte K.SET_DISP 1 k4 (by norm_num); omega
  unfold ssd1306_config configBytes
  simp only
  rw [command_pair d bus _ o1 hm, command_pair _ _ _ k5 rfl,
    command_pair _ _ 0x01 (by norm_num) rfl, command_pair _ _ _ o2 rfl,
    command_pair _ _ _ o3 rfl, command_pair _ _ _ k10 rfl, command_pair _ _ _ (u8_lt _) rfl,
    command_pair _ _ _ o4 rfl, command_pair _ _ _ k12 rfl,
    command_pair _ _ 0x00 (by norm_num) rfl, command_pair _ _ _ k13 rfl,
    command_pair _ _ 0x12 (by norm_num) rfl, command_pair _ _ _ k14 rfl,
    command_pair _ _ 0x80 (by norm_num) rfl, command_pair _ _ _ k15 rfl,
    command_pair _ _ 0xF1 (by norm_num) rfl, command_pair _ _ _ k16 rfl,
    command_pair _ _ 0x30 (by norm_num) rfl, command_pair _ _ _ k1 rfl,
    command_pair _ _ 0xFF (by norm_num) rfl, command_pair _ _ _ k2 rfl,
    command_pair _ _ _ k3 rfl, command_pair _ _ _ k17 rfl,
    command_pair _ _ 0x14 (by norm_num) rfl, command_pair _ _ _ o5 rfl]
  simp [commandTransfer]

/-- Claim C15, amended: in every state `(d, bus)` the driver reaches after
`ssd1306_init` (opcode macros being bytes), `ssd1306_config` appends exactly
25 transfers, each `[0x80, byte]` to the display's controller, with the bytes
in this order: display off (`SET_DISP | 0`); memory addressing mode, operand
`0x01`, which the SSD1306 command table assigns to vertical (not page)
addressing; start line 0; segment remap (`| 1`); multiplex ratio, operand
`HEIGHT - 1`; COM output direction (`| 8`); display offset, `0`; COM pin
configuration, `0x12`; clock divide, `0x80`; pre-charge, `0xF1`; VCOM
deselect, `0x30`; contrast, `0xFF`; resume to RAM content; normal display;
charge pump, `0x14`; display on (`SET_DISP | 1`).  The first transfer is
display off, the last is display on, and the charge-pump command and its
operand are the two transfers before it.  The frame buffer is unchanged. -/
theorem config_transfers (K : Header) (font : Nat → Nat) (fuel : Nat) (ssd : ssd1306_t)
    (width height : Nat) (ev : Bool) (address i2c : Nat) (bus0 : Bus)
    (calls : List DriverCall) (d : ssd1306_t) (bus : Bus) (hK : K.IsBytes)
    (h : runDriver K font fuel (ssd1306_init ssd width height ev address i2c, bus0) calls
      = .ok (d, bus)) :
    (ssd1306_config K (d, bus)).2 = bus ++
        [ K.SET_DISP ||| 0x00, K.SET_MEM_ADDR, AddressingMode.vertical.operand,
          K.SET_DISP_START_LINE ||| 0x00, K.SET_SEG_REMAP ||| 0x01, K.SET_MUX_RATIO,
          u8 (( K.HEIGHT : Int) - 1), K.SET_COM_OUT_DIR ||| 0x08, K.SET_DISP_OFFSET, 0x00,
          K.SET_COM_PIN_CFG, 0x12, K.SET_DISP_CLK_DIV, 0x80, K.SET_PRECHARGE, 0xF1,
          K.SET_VCOM_DESEL, 0x30, K.SET_CONTRAST, 0xFF, K.SET_ENTIRE_ON, K.SET_NORM_INV,
          K.SET_CHARGE_PUMP, 0x14, K.SET_DISP ||| 0x01 ].map
          (fun b => { port := d.i2c_port, address := d.address, bytes := [0x80, b] }) ∧
      ((ssd1306_config K (d, bus)).2.drop bus.length).length = 25 ∧
      ((ssd1306_config K (d, bus)).2.drop bus.length).head?
        = some { port := d.i2c_port, address := d.address, bytes := [0x80, K.SET_DISP ||| 0x00] } ∧
      ((ssd1306_config K (d, bus)).2.drop bus.length).getLast?
        = some { port := d.i2c_port, address := d.address, bytes := [0x80, K.SET_DISP ||| 0x01] } ∧
      ((ssd1306_config K (d, bus)).2.drop (bus.length + 22)).map Transfer.bytes
        = [[0x80, K.SET_CHARGE_PUMP], [0x80, 0x14], [0x80, K.SET_DISP ||| 0x01]] ∧
      (ssd1306_config K (d, bus)).1.ram_buffer = d.ram_buffer := by
  obtain ⟨⟨-, hm, -⟩, -⟩ :=
    runDriver_from_init K font fuel ssd width height ev address i2c bus0 calls (d, bus) h
  simp only at hm
  obtain ⟨e1, e2⟩ := config_eq K d bus hK hm
  refine ⟨?_, ?_, ?_, ?_, ?_, e2⟩
  · rw [e1]; rfl
  · rw [e1, List.drop_left]; rfl
  · rw [e1, List.drop_left]; rfl
  · rw [e1, List.drop_left]; rfl
  · rw [e1, List.drop_append]; rfl

theorem config_transfers_witness :
    ∃ d bus, runDriver stdHeader testFont 300 (narrow, []) sampleDriverCalls = .ok (d, bus) ∧
      (ssd1306_config stdHeader (d, bus)).2 = bus ++
        [0xAE, 0x20, 1, 0x40, 0xA1, 0xA8, 63, 0xC8, 0xD3, 0x00, 0xDA, 0x12, 0xD5, 0x80, 0xD9,
          0xF1, 0xDB, 0x30, 0x81, 0xFF, 0xA4, 0xA6, 0x8D, 0x14, 0xAF].map
          (fun b => { port := d.i2c_port, address := d.address, bytes := [0x80, b] }) := by
  cases h : runDriver stdHeader testFont 300 (narrow, []) sampleDriverCalls with
  | error e => cases e <;> exact absurd h (by decide)
  | ok st =>
    exact ⟨st.1, st.2, rfl, (config_transfers stdHeader testFont 300 _ 16 64 false 0x3C 1 []
      sampleDriverCalls st.1 st.2 (by decide) h).1⟩

/-- Claim C15 as stated fails at the addressing mode: the operand sent after
the memory-addressing-mode command is `0x01`, and the operand that selects
page addressing in the SSD1306 command table is `0x02`. -/
theorem config_mode_operand_not_page :
    ((ssd1306_config stdHeader (demo, [])).2.map Transfer.bytes)[1]?
        = some [0x80, stdHeader.SET_MEM_ADDR] ∧
      ((ssd1306_config stdHeader (demo, [])).2.map Transfer.bytes)[2]?
        = some [0x80, AddressingMode.vertical.operand] ∧
      ((ssd1306_config stdHeader (demo, [])).2.map Transfer.bytes)[2]?
        ≠ some [0x80, AddressingMode.page.operand] := by
  decide

/-- Claim C16 on a 128 x 32 display with `HEIGHT = 64` in the header: the
operand `ssd1306_config` sends after `SET_MUX_RATIO` is `HEIGHT - 1 = 63`, not
`height - 1 = 31` of the display being configured. -/
theorem config_mux_operand_ignores_display :
    d32.height = 32 ∧
      ((ssd1306_config stdHeader (d32, [])).2.map Transfer.bytes)[5]?
        = some [0x80, stdHeader.SET_MUX_RATIO] ∧
      ((ssd1306_config stdHeader (d32, [])).2.map Transfer.bytes)[6]? = some [0x80, 63] ∧
      ((ssd1306_config stdHeader (d32, [])).2.map Transfer.bytes)[6]?
        ≠ some [0x80, d32.height - 1] := by
  decide

/-! ## Pixel addressing on 64-pixel-high displays -/

theorem pixelIndex_eq (x y : Nat) (hx : x < 256) (hy : y < 256) :
    pixelIndex x y = y / 8 + 8 * x + 1 ∧ pixelBit y = y % 8 :=
  pixel_addr x y hx hy

/-- Claim C19: on a well-formed display of height 64 the addressing of
`ssd1306_pixel` is in bounds and injective.  Every `(x, y)` with `x < width`,
`y < 64` gets a byte index in `[1, 8 * width]`, inside the buffer of
`8 * width + 1` bytes, and a bit number below 8; two in-grid pixels with the
same byte index and bit number are the same pixel; and `ssd1306_pixel` on an
in-grid pixel succeeds, stores into that byte only, makes the pixel read
`value` and leaves the reading of every other in-grid pixel as it was. -/
theorem pixel_addressing_injective (d : ssd1306_t) (hwf : WF d) (hh : d.height = 64) :
    d.ram_buffer.length = 8 * d.width + 1 ∧
      (∀ x y, x < d.width → y < 64 →
        1 ≤ pixelIndex x y ∧ pixelIndex x y ≤ 8 * d.width ∧
          pixelIndex x y < d.ram_buffer.length ∧ pixelBit y < 8) ∧
      (∀ x y x2 y2, x < d.width → y < 64 → x2 < d.width → y2 < 64 →
        pixelIndex x y = pixelIndex x2 y2 → pixelBit y = pixelBit y2 → x = x2 ∧ y = y2) ∧
      (∀ x y value, x < d.width → y < 64 →
        ∃ d1, ssd1306_pixel d x y value = .ok d1 ∧
          d1.ram_buffer = d.ram_buffer.set (pixelIndex x y)
            (storedByte (d.ram_buffer.getD (pixelIndex x y) 0) (pixelBit y) value) ∧
          readPixel d1 x y = value ∧
          ∀ x2 y2, x2 < d.width → y2 < 64 → ¬ (x2 = x ∧ y2 = y) →
            readPixel d1 x2 y2 = readPixel d x2 y2) := by
  have hw : d.width < 256 := hwf.1
  have hp8 : d.pages = 8 := by rw [hwf.2.2.1, hh]
  have hlen : d.ram_buffer.length = 8 * d.width + 1 := by
    rw [hwf.2.2.2.2.1, hwf.2.2.2.1, hp8]
  refine ⟨hlen, ?_, ?_, ?_⟩
  · intro x y hx hy
    obtain ⟨e1, e2⟩ := pixelIndex_eq x y (by omega) (by omega)
    rw [e1, e2]
    omega
  · intro x y x2 y2 hx hy hx2 hy2 hi hb
    obtain ⟨e1, e2⟩ := pixelIndex_eq x y (by omega) (by omega)
    obtain ⟨e3, e4⟩ := pixelIndex_eq x2 y2 (by omega) (by omega)
    rw [e1, e3] at hi
    rw [e2, e4] at hb
    omega
  · intro x y value hx hy
    obtain ⟨e1, e2⟩ := pixelIndex_eq x y (by omega) (by omega)
    obtain ⟨d1, h1, -, -, hr⟩ := pixel_grid d x y value hwf hh hx hy
    have hok := pixel_ok d x y value (by omega) (by omega) (by omega)
    rw [h1] at hok
    refine ⟨d1, h1, ?_, ?_, ?_⟩
    · rw [e1, e2]
      cases hok
      rfl
    · rw [hr x y hy]; simp
    · intro x2 y2 _ hy2 hne
      rw [hr x2 y2 hy2, if_neg hne]

theorem pixel_addressing_injective_witness :
    (WF demo ∧ demo.height = 64) ∧
      demo.ram_buffer.length = 8 * demo.width + 1 ∧
      (∀ x y, x < demo.width → y < 64 →
        1 ≤ pixelIndex x y ∧ pixelIndex x y ≤ 8 * demo.width ∧
          pixelIndex x y < demo.ram_buffer.length ∧ pixelBit y < 8) ∧
      (∀ x y x2 y2, x < demo.width → y < 64 → x2 < demo.width → y2 < 64 →
        pixelIndex x y = pixelIndex x2 y2 → pixelBit y = pixelBit y2 → x = x2 ∧ y = y2) ∧
      (∀ x y value, x < demo.width → y < 64 →
        ∃ d1, ssd1306_pixel demo x y value = .ok d1 ∧
          d1.ram_buffer = demo.ram_buffer.set (pixelIndex x y)
            (storedByte (demo.ram_buffer.getD (pixelIndex x y) 0) (pixelBit y) value) ∧
          readPixel d1 x y = value ∧
          ∀ x2 y2, x2 < demo.width → y2 < 64 → ¬ (x2 = x ∧ y2 = y) →
            readPixel d1 x2 y2 = readPixel demo x2 y2) :=
  ⟨⟨init_WF _ _ _ _ _ _, by decide⟩,
    pixel_addressing_injective demo (init_WF _ _ _ _ _ _) (by decide)⟩

/-! ## `ssd1306_fill` as a block fill -/

/-- The result of `ssd1306_fill` on a 64-pixel-high display, with the facts
about the state it returns. -/
theorem fill_grid (d : ssd1306_t) (value : Bool) (hwf : WF d) (hh : d.height = 64) :
    ∃ d1, ssd1306_fill d value = .ok d1 ∧ WF d1 ∧ SameGeometry d d1 ∧
      ∀ x y, x < d.width → y < 64 → readPixel d1 x y = value := by
  rw [fill_writes d value hwf]
  obtain ⟨d1, h1, hwf1, hg1, hr⟩ := applyWrites_grid
    ((List.range' 0 d.height).flatMap (fun y =>
        (List.range' 0 d.width).flatMap (fun x => [(x, y, value)]))) d hwf hh (by
      intro w hw
      simp only [List.mem_flatMap, List.mem_range'_1, List.mem_singleton] at hw
      obtain ⟨y, hy, x, hx, rfl⟩ := hw
      simp only
      omega)
  refine ⟨d1, h1, hwf1, hg1, ?_⟩
  intro x y hx hy
  rw [hr x y hy]
  apply lastWrite_mem (fun _ _ => value)
  · intro w hw
    simp only [List.mem_flatMap, List.mem_range'_1, List.mem_singleton] at hw
    obtain ⟨y, hy, x, hx, rfl⟩ := hw
    rfl
  · refine ⟨value, ?_⟩
    simp only [List.mem_flatMap, List.mem_range'_1, List.mem_singleton]
    exact ⟨y, by omega, x, by omega, rfl⟩

theorem testBit_255 (k : Nat) (hk : k < 8) : (255 : Nat).testBit k = true := by
  have h : (255 : Nat) = 2 ^ 8 - 1 := by norm_num
  rw [h, Nat.testBit_two_pow_sub_one]
  simp [hk]

/-- A byte whose eight bits all equal `value` is `0xFF` or `0x00`. -/
theorem byte_of_bits (b : Nat) (value : Bool) (hb : b < 256)
    (h : ∀ k, k < 8 → b.testBit k = value) : b = if value then 0xFF else 0x00 := by
  cases value with
  | false =>
    apply byte_ext b _ hb (by norm_num)
    intro k hk
    rw [h k hk]; simp
  | true =>
    apply byte_ext b _ hb (by norm_num)
    intro k hk
    rw [h k hk]
    exact (testBit_255 k hk).symm

theorem ssd_ext (a b : ssd1306_t) (hg : SameGeometry a b) (hbuf : b.ram_buffer = a.ram_buffer) :
    b = a := by
  obtain ⟨h1, h2, h3, h4, h5, h6, h7, -⟩ := hg
  cases a
  cases b
  simp only at h1 h2 h3 h4 h5 h6 h7 hbuf
  simp [h1, h2, h3, h4, h5, h6, h7, hbuf]

/-- Claim C18: on a well-formed display of height 64 (any width), from any
buffer state and for both values, `ssd1306_fill` returns exactly the state a
`memset` of the buffer body gives: byte 0 kept, every byte `1 .. pages * width`
equal to `0xFF` when `value` is true and `0x00` when it is false, nothing else
changed. -/
theorem fill_refines_memset (d : ssd1306_t) (value : Bool) (hwf : WF d) (hh : d.height = 64) :
    ssd1306_fill d value = .ok (fill_memset d value) ∧
      (fill_memset d value).ram_buffer.length = d.ram_buffer.length ∧
      (fill_memset d value).ram_buffer[0]? = d.ram_buffer[0]? ∧
      (∀ i, 1 ≤ i → i ≤ d.pages * d.width →
        (fill_memset d value).ram_buffer[i]? = some (if value then 0xFF else 0x00)) := by
  obtain ⟨d1, h1, hwf1, hg1, hr⟩ := fill_grid d value hwf hh
  have hp8 : d.pages = 8 := by rw [hwf.2.2.1, hh]
  have hlen : d.ram_buffer.length = 8 * d.width + 1 := by
    rw [hwf.2.2.2.2.1, hwf.2.2.2.1, hp8]
  have hlen1 : d1.ram_buffer.length = 8 * d.width + 1 := by rw [hg1.2.2.2.2.2.2.2, hlen]
  have hp81 : d1.pages = 8 := by rw [hg1.2.2.1, hp8]
  have hm0 : (fill_memset d value).ram_buffer[0]? = d.ram_buffer[0]? := by
    unfold fill_memset
    simp only
    rw [List.getElem?_append_left (by simp; omega)]
    simp [List.getElem?_take]
  have hmi : ∀ i, 1 ≤ i → i ≤ d.pages * d.width →
      (fill_memset d value).ram_buffer[i]? = some (if value then 0xFF else 0x00) := by
    intro i hi1 hi2
    unfold fill_memset
    simp only
    have hl1 : (List.take 1 d.ram_buffer).length = 1 := by simp; omega
    rw [List.getElem?_append_right (by omega), hl1, List.getElem?_replicate]
    rw [if_pos (by omega)]
  have hmlen : (fill_memset d value).ram_buffer.length = d.ram_buffer.length := by
    unfold fill_memset
    simp only [List.length_append, List.length_take, List.length_replicate]
    rw [hp8, hlen]; omega
  have hbuf : d1.ram_buffer = (fill_memset d value).ram_buffer := by
    apply List.ext_getElem?
    intro i
    by_cases hi0 : i = 0
    · subst hi0
      rw [hm0, fill_byte0 d d1 value h1]
    · by_cases hi : i ≤ d.pages * d.width
      · rw [hmi i (by omega) hi]
        rw [hp8] at hi
        have hil : i < d1.ram_buffer.length := by omega
        rw [List.getElem?_eq_getElem hil]
        congr 1
        apply byte_of_bits _ _ (hwf1.2.2.2.2.2 _ (List.getElem_mem hil))
        intro k hk
        have hx : (i - 1) / 8 < d.width := by omega
        have := hr ((i - 1) / 8) (8 * ((i - 1) % 8) + k) hx (by omega)
        unfold readPixel bitAt at this
        rw [hp81, shr3, and7] at this
        have e1 : (8 * ((i - 1) % 8) + k) / 8 + (i - 1) / 8 * 8 + 1 = i := by omega
        have e2 : (8 * ((i - 1) % 8) + k) % 8 = k := by omega
        rw [e1, e2, List.getD_eq_getElem?_getD, List.getElem?_eq_getElem hil,
          Option.getD_some] at this
        exact this
      · rw [List.getElem?_eq_none (by rw [hlen1]; rw [hp8] at hi; omega),
          List.getElem?_eq_none (by rw [hmlen, hlen]; rw [hp8] at hi; omega)]
  have hd1 : d1 = fill_memset d value := by
    have hg2 : SameGeometry (fill_memset d value) d1 := by
      unfold SameGeometry at hg1 ⊢
      obtain ⟨a1, a2, a3, a4, a5, a6, a7, a8⟩ := hg1
      exact ⟨a1, a2, a3, a4, a5, a6, a7, by rw [hbuf]⟩
    exact ssd_ext _ _ hg2 hbuf
  rw [h1, hd1]
  exact ⟨rfl, hmlen, hm0, hmi⟩

theorem fill_refines_memset_witness :
    (WF demo ∧ demo.height = 64) ∧
      ssd1306_fill demo true = .ok (fill_memset demo true) ∧
      (fill_memset demo true).ram_buffer.length = demo.ram_buffer.length ∧
      (fill_memset demo true).ram_buffer[0]? = demo.ram_buffer[0]? ∧
      (∀ i, 1 ≤ i → i ≤ demo.pages * demo.width →
        (fill_memset demo true).ram_buffer[i]? = some (if true then 0xFF else 0x00)) :=
  ⟨⟨init_WF _ _ _ _ _ _, by decide⟩,
    fill_refines_memset demo true (init_WF _ _ _ _ _ _) (by decide)⟩

/-! ## Degenerate rectangles -/

/-- Claim C17 on the cleared 16 x 64 display: a rectangle of width 0
(`top = 0, left = 5, height = 3`) sets the pixels of column `left` and of
column `left - 1`; with `left = 0` the second column is the wrapped-around
255, outside the buffer; and a rectangle of height 0
(`top = 8, left = 2, width = 3`) sets pixels in rows `top` and `top - 1`. -/
theorem rect_degenerate_draws :
    ((ssd1306_rect 256 narrow 0 5 0 3 true false).map
        (fun s => (readPixel s 5 0, readPixel s 4 0, readPixel s 4 2, readPixel s 5 2))
      = .ok (true, true, true, true) ∧
      readPixel narrow 5 0 = false ∧ readPixel narrow 4 0 = false) ∧
    ssd1306_rect 256 narrow 0 5 0 3 true false ≠ .ok narrow ∧
    ssd1306_rect 256 narrow 0 0 0 3 true false = .error .outOfBounds ∧
    ((ssd1306_rect 256 narrow 8 2 3 0 true false).map
        (fun s => (readPixel s 2 8, readPixel s 4 8, readPixel s 2 7, readPixel s 4 7))
      = .ok (true, true, true, true) ∧
      readPixel narrow 2 7 = false ∧ readPixel narrow 4 7 = false) := by
  decide

/-! ## Termination of `ssd1306_rect` -/

theorem pixel_ne_outOfFuel (d : ssd1306_t) (x y : Nat) (v : Bool) :
    ssd1306_pixel d x y v ≠ .error .outOfFuel := by
  unfold ssd1306_pixel
  simp only
  split
  · intro h; cases h
  · split <;> (intro h; cases h)

theorem applyWrites_ne_outOfFuel (ws : List (Nat × Nat × Bool)) (d : ssd1306_t) :
    applyWrites d ws ≠ .error .outOfFuel := by
  induction ws generalizing d with
  | nil => intro h; cases h
  | cons w ws ih =>
    rw [applyWrites_cons]
    cases hp : ssd1306_pixel d w.1 w.2.1 w.2.2 with
    | error e =>
      intro h
      cases h
      exact pixel_ne_outOfFuel d _ _ _ hp
    | ok d1 => exact ih d1

/-- With both bounds in 8 bits and at least 256 units of fuel, `ssd1306_rect`
is the finite sequence of pixel writes `rectCalls`. -/
theorem rect_calls (fuel : Nat) (d : ssd1306_t) (top left w h : Nat) (v fill : Bool)
    (hfuel : 256 ≤ fuel) (hlw : left + w ≤ 255) (hth : top + h ≤ 255) :
    ssd1306_rect fuel d top left w h v fill = applyWrites d (rectCalls top left w h v fill) := by
  have e1 : top % 256 = top := Nat.mod_eq_of_lt (by omega)
  have e2 : left % 256 = left := Nat.mod_eq_of_lt (by omega)
  have e3 : w % 256 = w := Nat.mod_eq_of_lt (by omega)
  have e4 : h % 256 = h := Nat.mod_eq_of_lt (by omega)
  have u3 : u8 ((top : Int) + 1) < 256 := u8_lt _
  have u4 : u8 ((left : Int) + 1) < 256 := u8_lt _
  unfold ssd1306_rect rectCalls
  simp only [e1, e2, e3, e4]
  rw [forU8_writes d (left + w) (by omega) _ _
    (fun x => [(x, top, v), (x, u8 ((top : Int) + h - 1), v)]) ?_ ?_ w left fuel d (by omega)
    (by omega) (SameGeometry.refl d)]
  rotate_left
  · intro i s _
    exact decide_eq_decide.mpr (by omega)
  · intro i s _ _
    rw [applyWrites_pair]
  rw [applyWrites_append]
  cases h1 : applyWrites d
      ((List.range' left w).flatMap
        (fun x => [(x, top, v), (x, u8 ((top : Int) + h - 1), v)])) with
  | error e => rfl
  | ok s1 =>
    have g1 : SameGeometry d s1 := applyWrites_sameGeometry _ _ _ h1
    simp only
    rw [forU8_writes d (top + h) (by omega) _ _
      (fun y => [(left, y, v), (u8 ((left : Int) + w - 1), y, v)]) ?_ ?_ h top fuel s1
      (by omega) (by omega) g1]
    rotate_left
    · intro i s _
      exact decide_eq_decide.mpr (by omega)
    · intro i s _ _
      rw [applyWrites_pair]
    rw [applyWrites_append]
    cases h2 : applyWrites s1
        ((List.range' top h).flatMap
          (fun y => [(left, y, v), (u8 ((left : Int) + w - 1), y, v)])) with
    | error e => rfl
    | ok s2 =>
      have g2 : SameGeometry d s2 := g1.trans (applyWrites_sameGeometry _ _ _ h2)
      simp only
      cases fill with
      | false => simp [applyWrites_nil]
      | true =>
        simp only [if_true]
        refine forU8_writes d (((left : Int) + w - 1).toNat) (by omega) _ _ _ ?_ ?_
          (((left : Int) + w - 1).toNat - u8 ((left : Int) + 1)) (u8 ((left : Int) + 1)) fuel s2
          rfl (by omega) g2
        · intro i s _
          exact decide_eq_decide.mpr (by omega)
        · intro x s hs _
          refine forU8_writes d (((top : Int) + h - 1).toNat) (by omega) _ _ _ ?_ ?_
            (((top : Int) + h - 1).toNat - u8 ((top : Int) + 1)) (u8 ((top : Int) + 1)) fuel s
            rfl (by omega) hs
          · intro i s _
            exact decide_eq_decide.mpr (by omega)
          · intro y s1 _ _
            rw [applyWrites_single]

/-- A `uint8_t` loop whose condition holds for every 8-bit counter value never
returns. -/
theorem forU8_never_ok {σ : Type} (cond : Nat → σ → Bool) (body : Nat → σ → Except Fault σ)
    (hc : ∀ i s, i < 256 → cond i s = true) :
    ∀ (fuel i : Nat) (s s1 : σ), i < 256 → forU8 fuel cond body i s ≠ .ok s1 := by
  intro fuel
  induction fuel with
  | zero =>
    intro i s s1 _ h
    unfold forU8 at h
    cases h
  | succ fuel ih =>
    intro i s s1 hi h
    unfold forU8 at h
    rw [hc i s hi] at h
    simp only [if_true] at h
    cases hb : body i s with
    | error e => rw [hb] at h; cases h
    | ok s2 =>
      rw [hb] at h
      exact ih _ s2 s1 (Nat.mod_lt _ (by norm_num)) h

/-- Such a loop, when its body never faults, runs out of any amount of fuel. -/
theorem forU8_diverges {σ : Type} (P : σ → Prop) (cond : Nat → σ → Bool)
    (body : Nat → σ → Except Fault σ) (hc : ∀ i s, i < 256 → cond i s = true)
    (hb : ∀ i s, P s → ∃ s1, body i s = .ok s1 ∧ P s1) :
    ∀ (fuel i : Nat) (s : σ), i < 256 → P s → forU8 fuel cond body i s = .error .outOfFuel := by
  intro fuel
  induction fuel with
  | zero =>
    intro i s _ _
    rfl
  | succ fuel ih =>
    intro i s hi hs
    unfold forU8
    rw [hc i s hi]
    obtain ⟨s1, h1, hs1⟩ := hb i s hs
    simp only [if_true, h1]
    exact ih _ s1 (Nat.mod_lt _ (by norm_num)) hs1

/-- On a buffer of at least 2073 bytes no `ssd1306_pixel` call faults. -/
theorem pixel_total (d : ssd1306_t) (x y : Nat) (v : Bool) (hl : 2073 ≤ d.ram_buffer.length) :
    ∃ d1, ssd1306_pixel d x y v = .ok d1 ∧ 2073 ≤ d1.ram_buffer.length := by
  have hx : x % 256 < 256 := Nat.mod_lt _ (by norm_num)
  have hy : y % 256 < 256 := Nat.mod_lt _ (by norm_num)
  obtain ⟨e1, -⟩ := pixel_addr (x % 256) (y % 256) hx hy
  rw [Nat.mod_mod, Nat.mod_mod] at e1
  have hi : (((y % 256) >>> 3) + ((x % 256) <<< 3) + 1) % 65536 < d.ram_buffer.length := by
    rw [e1]; omega
  unfold ssd1306_pixel
  simp only
  rw [List.getElem?_eq_getElem hi]
  simp only
  split
  · exact ⟨_, rfl, by simpa using hl⟩
  · exact ⟨_, rfl, by simpa using hl⟩

theorem pixel_pair_total (d : ssd1306_t) (x y x2 y2 : Nat) (v : Bool)
    (hl : 2073 ≤ d.ram_buffer.length) :
    ∃ d1, (match ssd1306_pixel d x y v with
      | .ok s1 => ssd1306_pixel s1 x2 y2 v
      | .error e => .error e) = .ok d1 ∧ 2073 ≤ d1.ram_buffer.length := by
  obtain ⟨s1, h1, hl1⟩ := pixel_total d x y v hl
  obtain ⟨s2, h2, hl2⟩ := pixel_total s1 x2 y2 v hl1
  exact ⟨s2, by rw [h1]; exact h2, hl2⟩

theorem applyWrites_total (ws : List (Nat × Nat × Bool)) (d : ssd1306_t)
    (hl : 2073 ≤ d.ram_buffer.length) :
    ∃ d1, applyWrites d ws = .ok d1 ∧ 2073 ≤ d1.ram_buffer.length := by
  induction ws generalizing d with
  | nil => exact ⟨d, rfl, hl⟩
  | cons w ws ih =>
    obtain ⟨s1, h1, hl1⟩ := pixel_total d w.1 w.2.1 w.2.2 hl
    obtain ⟨s2, h2, hl2⟩ := ih s1 hl1
    exact ⟨s2, by rw [applyWrites_cons, h1]; exact h2, hl2⟩

/-- A loop whose body never faults returns a state or runs out of fuel. -/
theorem forU8_ok_or_fuel {σ : Type} (P : σ → Prop) (cond : Nat → σ → Bool)
    (body : Nat → σ → Except Fault σ) (hb : ∀ i s, P s → ∃ s1, body i s = .ok s1 ∧ P s1) :
    ∀ (fuel i : Nat) (s : σ), P s →
      (∃ s1, forU8 fuel cond body i s = .ok s1 ∧ P s1) ∨
        forU8 fuel cond body i s = .error .outOfFuel := by
  intro fuel
  induction fuel with
  | zero =>
    intro i s _
    exact Or.inr rfl
  | succ fuel ih =>
    intro i s hs
    unfold forU8
    by_cases hc : cond i s = true
    · obtain ⟨s1, h1, hs1⟩ := hb i s hs
      simp only [hc, if_true, h1]
      exact ih _ s1 hs1
    · simp only [hc, Bool.false_eq_true, if_false]
      exact Or.inl ⟨s, rfl, hs⟩

theorem forU8_error_is_fuel {σ : Type} (P : σ → Prop) (cond : Nat → σ → Bool)
    (body : Nat → σ → Except Fault σ) (fuel i : Nat) (s : σ) (e : Fault)
    (h : forU8 fuel cond body i s = .error e) (hs : P s)
    (hb : ∀ i s, P s → ∃ s1, body i s = .ok s1 ∧ P s1) : e = .outOfFuel := by
  rcases forU8_ok_or_fuel P cond body hb fuel i s hs with ⟨s1, hs1, -⟩ | hf
  · rw [hs1] at h; cases h
  · rw [hf] at h; cases h; rfl

theorem pixel_pair_len (d d1 : ssd1306_t) (x y x2 y2 : Nat) (v : Bool) (n : Nat)
    (hl : n ≤ d.ram_buffer.length)
    (h : (match ssd1306_pixel d x y v with
      | .ok s1 => ssd1306_pixel s1 x2 y2 v
      | .error e => .error e) = .ok d1) : n ≤ d1.ram_buffer.length := by
  cases hp : ssd1306_pixel d x y v with
  | error e => rw [hp] at h; cases h
  | ok s1 =>
    rw [hp] at h
    rw [(pixel_sameGeometry s1 d1 _ _ _ h).2.2.2.2.2.2.2,
      (pixel_sameGeometry d s1 _ _ _ hp).2.2.2.2.2.2.2]
    exact hl

/-- Claim C20: for 8-bit arguments, `ssd1306_rect` terminates exactly when
both loop bounds fit in 8 bits.  If `left + width ≤ 255` and
`top + height ≤ 255`, then with any fuel from 256 on the call is the finite
sequence of pixel writes `rectCalls` and never runs out of fuel.  If
`left + width ≥ 256` or `top + height ≥ 256`, then for no amount of fuel does
the call return a state, and on a buffer large enough for every pixel write
to succeed (2073 bytes) it runs out of every amount of fuel. -/
theorem rect_terminates_iff_bounds_fit (d : ssd1306_t) (top left w h : Nat) (v fill : Bool)
    (ht : top < 256) (hl : left < 256) (hw : w < 256) (hh : h < 256) :
    (left + w ≤ 255 → top + h ≤ 255 → ∀ fuel, 256 ≤ fuel →
      ssd1306_rect fuel d top left w h v fill = applyWrites d (rectCalls top left w h v fill) ∧
      ssd1306_rect fuel d top left w h v fill ≠ .error .outOfFuel) ∧
    (256 ≤ left + w ∨ 256 ≤ top + h → ∀ fuel,
      (∀ d1, ssd1306_rect fuel d top left w h v fill ≠ .ok d1) ∧
      (2073 ≤ d.ram_buffer.length →
        ssd1306_rect fuel d top left w h v fill = .error .outOfFuel)) := by
  constructor
  · intro hlw hth fuel hfuel
    have e := rect_calls fuel d top left w h v fill hfuel hlw hth
    refine ⟨e, ?_⟩
    rw [e]
    exact applyWrites_ne_outOfFuel _ d
  · intro hbig fuel
    have e1 : top % 256 = top := Nat.mod_eq_of_lt ht
    have e2 : left % 256 = left := Nat.mod_eq_of_lt hl
    have e3 : w % 256 = w := Nat.mod_eq_of_lt hw
    have e4 : h % 256 = h := Nat.mod_eq_of_lt hh
    unfold ssd1306_rect
    simp only [e1, e2, e3, e4]
    by_cases hlw : 256 ≤ left + w
    · have hc : ∀ (i : Nat) (s : ssd1306_t), i < 256 →
          decide ((i : Int) < (left : Int) + w) = true := by
        intro i s hi
        exact decide_eq_true (by omega)
      constructor
      · intro d1
        split
        · intro hx; cases hx
        · rename_i s1 h1
          exact absurd h1 (forU8_never_ok _ _ hc fuel left d s1 hl)
      · intro hlen
        rw [forU8_diverges (fun s => 2073 ≤ s.ram_buffer.length) _ _ hc ?_ fuel left d hl hlen]
        intro i s hs
        exact pixel_pair_total s _ _ _ _ v hs
    · have hth : 256 ≤ top + h := by omega
      have hc : ∀ (i : Nat) (s : ssd1306_t), i < 256 →
          decide ((i : Int) < (top : Int) + h) = true := by
        intro i s hi
        exact decide_eq_true (by omega)
      constructor
      · intro d1
        split
        · intro hx; cases hx
        · split
          · intro hx; cases hx
          · rename_i s2 h2
            exact absurd h2 (forU8_never_ok _ _ hc fuel top _ s2 ht)
      · intro hlen
        split
        · rename_i e h1
          have he := forU8_error_is_fuel (fun s : ssd1306_t => 2073 ≤ s.ram_buffer.length)
            _ _ fuel left d e h1 hlen (fun i s hs => pixel_pair_total s _ _ _ _ v hs)
          rw [he]
        · rename_i s1 h1
          have hlen1 : 2073 ≤ s1.ram_buffer.length := by
            refine forU8_inv (fun s => 2073 ≤ s.ram_buffer.length) _ _ ?_ _ _ d s1 hlen h1
            intro i s s2 hs hb
            exact pixel_pair_len s s2 _ _ _ _ v 2073 hs hb
          rw [forU8_diverges (fun s => 2073 ≤ s.ram_buffer.length) _ _ hc ?_ fuel top s1 ht hlen1]
          intro i s hs
          exact pixel_pair_total s _ _ _ _ v hs

theorem init_length (ssd : ssd1306_t) (width height : Nat) (ev : Bool) (address i2c : Nat) :
    (ssd1306_init ssd width height ev address i2c).ram_buffer.length
      = (height % 256) / 8 * (width % 256) + 1 := by
  simp [ssd1306_init]

theorem rect_terminates_iff_bounds_fit_witness :
    (∀ fuel, 256 ≤ fuel →
      ssd1306_rect fuel wide 0 0 10 5 true true
        = applyWrites wide (rectCalls 0 0 10 5 true true) ∧
      ssd1306_rect fuel wide 0 0 10 5 true true ≠ .error .outOfFuel) ∧
    (∀ fuel, (∀ d1, ssd1306_rect fuel wide 0 250 10 5 true true ≠ .ok d1) ∧
      ssd1306_rect fuel wide 0 250 10 5 true true = .error .outOfFuel) := by
  have hlen : 2073 ≤ wide.ram_buffer.length := by
    unfold wide
    rw [init_length]
    norm_num
  refine ⟨(rect_terminates_iff_bounds_fit wide 0 0 10 5 true true (by decide) (by decide)
    (by decide) (by decide)).1 (by decide) (by decide), ?_⟩
  intro fuel
  have h := (rect_terminates_iff_bounds_fit wide 0 250 10 5 true true (by decide) (by decide)
    (by decide) (by decide)).2 (Or.inl (by decide)) fuel
  exact ⟨h.1, h.2 hlen⟩

/-! ## The calls made by `ssd1306_draw_string` -/

theorem draw_char_writes (font : Nat → Nat) (d : ssd1306_t) (c x y : Nat) :
    ssd1306_draw_char font d c x y = applyWrites d (charWrites font c x y) := by
  unfold ssd1306_draw_char charWrites
  simp only
  split
  · exact draw_char_loops_writes font d _ _ _
  · split
    · exact draw_char_loops_writes font d _ _ _
    · split
      · exact draw_char_loops_writes font d _ _ _
      · rfl

theorem drawGlyphs_writes (font : Nat → Nat) (gs : List (Nat × Nat × Nat)) (d : ssd1306_t) :
    drawGlyphs font d gs
      = applyWrites d (gs.flatMap (fun g => charWrites font g.1 g.2.1 g.2.2)) := by
  induction gs generalizing d with
  | nil => rfl
  | cons g gs ih =>
    rw [drawGlyphs_cons, List.flatMap_cons, applyWrites_append, draw_char_writes]
    cases applyWrites d (charWrites font g.1 g.2.1 g.2.2) with
    | error e => rfl
    | ok d1 => exact ih d1

/-- The loop of `ssd1306_draw_string` is the sequence of `ssd1306_draw_char`
calls `stringGlyphs`, on every display. -/
theorem draw_string_loop_glyphs (font : Nat → Nat) (str : List Nat) :
    ∀ (d : ssd1306_t) (x y : Nat),
      draw_string_loop font d str x y
        = drawGlyphs font d (stringGlyphs d.width d.height str x y) := by
  induction str with
  | nil => intro d x y; rfl
  | cons c cs ih =>
    intro d x y
    rw [draw_string_loop, stringGlyphs]
    by_cases h0 : c % 256 = 0
    · simp only [h0, if_true]
      rfl
    · simp only [h0, if_false]
      rw [drawGlyphs_cons]
      cases h1 : ssd1306_draw_char font d c x y with
      | error e => rfl
      | ok s1 =>
        obtain ⟨hw1, hh1, -⟩ := draw_char_sameGeometry font d s1 c x y h1
        simp only [hw1, hh1, decide_eq_true_eq]
        split_ifs <;> first | rfl | rw [ih s1, hw1, hh1]

/-- Every glyph cell of `stringGlyphs` lies inside the grid when the first one
does. -/
theorem stringGlyphs_in_grid (width height : Nat) (hw : width ≤ 255) (hh : height ≤ 255)
    (str : List Nat) :
    ∀ (x y : Nat), x + 8 ≤ width → y + 8 ≤ height →
      ∀ g ∈ stringGlyphs width height str x y, g.2.1 + 8 ≤ width ∧ g.2.2 + 8 ≤ height := by
  induction str with
  | nil =>
    intro x y _ _ g hg
    rw [stringGlyphs] at hg
    cases hg
  | cons c cs ih =>
    intro x y hx hy g hg
    rw [stringGlyphs] at hg
    by_cases h0 : c % 256 = 0
    · simp only [h0, if_true] at hg
      cases hg
    · simp only [h0, if_false, decide_eq_true_eq] at hg
      have hx8 : (x + 8) % 256 = x + 8 := Nat.mod_eq_of_lt (by omega)
      have hy8 : (y + 8) % 256 = y + 8 := Nat.mod_eq_of_lt (by omega)
      rw [hx8, hy8] at hg
      rcases List.mem_cons.mp hg with rfl | hg2
      · exact ⟨hx, hy⟩
      · by_cases hwrap : x + 8 + 8 ≥ width
        · simp only [hwrap, if_true] at hg2
          by_cases hstop : y + 8 + 8 ≥ height
          · simp only [hstop, if_true] at hg2
            cases hg2
          · simp only [hstop, if_false] at hg2
            exact ih 0 (y + 8) (by omega) (by omega) g hg2
        · simp only [hwrap, if_false] at hg2
          by_cases hstop : y + 8 ≥ height
          · simp only [hstop, if_true] at hg2
            cases hg2
          · simp only [hstop, if_false] at hg2
            exact ih (x + 8) y (by omega) hy g hg2

theorem charWrites_in_cell (font : Nat → Nat) (c x y : Nat) (hx : x < 256) (hy : y < 256)
    (w : Nat × Nat × Bool) (hw : w ∈ charWrites font c x y) :
    x ≤ w.1 ∧ w.1 < x + 8 ∧ y ≤ w.2.1 ∧ w.2.1 < y + 8 := by
  unfold charWrites at hw
  simp only [Nat.mod_eq_of_lt hx, Nat.mod_eq_of_lt hy] at hw
  have key : ∀ index, w ∈ glyphWrites font index x y →
      x ≤ w.1 ∧ w.1 < x + 8 ∧ y ≤ w.2.1 ∧ w.2.1 < y + 8 := by
    intro index hm
    obtain ⟨i, hi, j, hj, rfl⟩ := (mem_glyphWrites _ _ _ _ _).mp hm
    simp only
    omega
  split at hw
  · exact key _ hw
  · split at hw
    · exact key _ hw
    · split at hw
      · exact key _ hw
      · cases hw

/-- Claim C11: on a well-formed display of height 64, for every text (any
bytes, any length) and every start `(x, y)` whose glyph cell lies inside the
grid, `ssd1306_draw_string` is the sequence of `ssd1306_pixel` calls
`stringWrites`, each of them has its coordinates inside
`[0, width) x [0, height)`, and the call returns a state.  Whenever drawing a
character at an in-grid position `(x0, y0)` is followed by a wrap onto a row
`y0 + 8` with `y0 + 8 + 8 ≥ height`, the rest of the text is dropped: the
calls, and the result, are those of drawing that one character. -/
theorem draw_string_stays_in_grid (font : Nat → Nat) (d : ssd1306_t) (text : List Nat)
    (x y : Nat) (hwf : WF d) (hh : d.height = 64) (hx : x + 8 ≤ d.width)
    (hy : y + 8 ≤ d.height) :
    ssd1306_draw_string font d text x y
        = applyWrites d (stringWrites font d.width d.height text x y) ∧
      (∀ w ∈ stringWrites font d.width d.height text x y, w.1 < d.width ∧ w.2.1 < d.height) ∧
      (∃ d1, ssd1306_draw_string font d text x y = .ok d1) ∧
      (∀ c rest x0 y0, x0 + 8 ≤ d.width → y0 + 8 ≤ d.height → c % 256 ≠ 0 →
        x0 + 8 + 8 ≥ d.width → y0 + 8 + 8 ≥ d.height →
        stringWrites font d.width d.height (c :: rest) x0 y0 = charWrites font c x0 y0 ∧
        ssd1306_draw_string font d (c :: rest) x0 y0 = ssd1306_draw_char font d c x0 y0) := by
  have hw : d.width < 256 := hwf.1
  have hht : d.height < 256 := hwf.2.1
  have heq : ∀ (str : List Nat) (a b : Nat), ssd1306_draw_string font d str a b
      = applyWrites d (stringWrites font d.width d.height str a b) := by
    intro str a b
    unfold ssd1306_draw_string stringWrites
    rw [draw_string_loop_glyphs, drawGlyphs_writes]
  have hgrid : ∀ w ∈ stringWrites font d.width d.height text x y,
      w.1 < d.width ∧ w.2.1 < d.height := by
    intro w hmem
    unfold stringWrites at hmem
    rw [Nat.mod_eq_of_lt (show x < 256 by omega), Nat.mod_eq_of_lt (show y < 256 by omega)]
      at hmem
    obtain ⟨g, hg, hwg⟩ := List.mem_flatMap.mp hmem
    obtain ⟨g1, g2⟩ :=
      stringGlyphs_in_grid d.width d.height (by omega) (by omega) text x y hx hy g hg
    have := charWrites_in_cell font g.1 g.2.1 g.2.2 (by omega) (by omega) w hwg
    omega
  refine ⟨heq text x y, hgrid, ?_, ?_⟩
  · rw [heq text x y]
    obtain ⟨d1, h1, -⟩ := applyWrites_grid _ d hwf hh (fun w hmem => by
      have := hgrid w hmem
      omega)
    exact ⟨d1, h1⟩
  · intro c rest x0 y0 hx0 hy0 hc hwrap hstop
    have hx8 : (x0 + 8) % 256 = x0 + 8 := Nat.mod_eq_of_lt (by omega)
    have hy8 : (y0 + 8) % 256 = y0 + 8 := Nat.mod_eq_of_lt (by omega)
    have hs : stringWrites font d.width d.height (c :: rest) x0 y0 = charWrites font c x0 y0 := by
      unfold stringWrites
      rw [Nat.mod_eq_of_lt (show x0 < 256 by omega), Nat.mod_eq_of_lt (show y0 < 256 by omega),
        stringGlyphs]
      simp only [hc, if_false, hx8, hy8, hwrap, decide_True, if_true, hstop]
      simp
    refine ⟨hs, ?_⟩
    rw [heq, hs, draw_char_writes]

theorem draw_string_stays_in_grid_witness :
    (WF demo ∧ demo.height = 64 ∧ 0 + 8 ≤ demo.width ∧ 40 + 8 ≤ demo.height) ∧
      ssd1306_draw_string testFont demo [73, 78, 86, 65, 76, 73, 68, 79] 0 40
        = applyWrites demo
            (stringWrites testFont demo.width demo.height [73, 78, 86, 65, 76, 73, 68, 79] 0 40) ∧
      (∀ w ∈ stringWrites testFont demo.width demo.height [73, 78, 86, 65, 76, 73, 68, 79] 0 40,
        w.1 < demo.width ∧ w.2.1 < demo.height) ∧
      (∃ d1, ssd1306_draw_string testFont demo [73, 78, 86, 65, 76, 73, 68, 79] 0 40 = .ok d1) ∧
      (∀ c rest x0 y0, x0 + 8 ≤ demo.width → y0 + 8 ≤ demo.height → c % 256 ≠ 0 →
        x0 + 8 + 8 ≥ demo.width → y0 + 8 + 8 ≥ demo.height →
        stringWrites testFont demo.width demo.height (c :: rest) x0 y0
          = charWrites testFont c x0 y0 ∧
        ssd1306_draw_string testFont demo (c :: rest) x0 y0
          = ssd1306_draw_char testFont demo c x0 y0) :=
  ⟨⟨init_WF _ _ _ _ _ _, by decide, by decide, by decide⟩,
    draw_string_stays_in_grid testFont demo [73, 78, 86, 65, 76, 73, 68, 79] 0 40
      (init_WF _ _ _ _ _ _) (by decide) (by decide) (by decide)⟩

/-! ## Text capacity of the 128 x 64 display -/

theorem supported_ne_zero (c : Nat) (hc : supported c) : ¬ c % 256 = 0 := by
  unfold supported at hc
  omega

/-- The calls of the loop from the `k`-th text position of the 128 x 64
display, `k < 105`: the positions run 15 to a line and stop after 105. -/
theorem stringGlyphs_from (text : List Nat) :
    ∀ (k : Nat), k < 105 → (∀ c ∈ text, supported c) →
      stringGlyphs 128 64 text (8 * (k % 15)) (8 * (k / 15))
        = (List.range (min text.length (105 - k))).map
            (fun i => (text.getD i 0, 8 * ((k + i) % 15), 8 * ((k + i) / 15))) := by
  induction text with
  | nil =>
    intro k _ _
    simp [stringGlyphs]
  | cons c cs ih =>
    intro k hk hsup
    have h0 := supported_ne_zero c (hsup c (List.mem_cons_self _ _))
    have hlen : (c :: cs).length = cs.length + 1 := rfl
    have hmin : min (cs.length + 1) (105 - k) = min cs.length (105 - (k + 1)) + 1 := by omega
    have hx8 : (8 * (k % 15) + 8) % 256 = 8 * (k % 15) + 8 := Nat.mod_eq_of_lt (by omega)
    have hy8 : (8 * (k / 15) + 8) % 256 = 8 * (k / 15) + 8 := Nat.mod_eq_of_lt (by omega)
    rw [stringGlyphs, if_neg h0, hlen, hmin, List.range_succ_eq_map, List.map_cons, List.map_map]
    simp only [hx8, hy8, decide_eq_true_eq, List.getD_cons_zero, Nat.add_zero]
    congr 1
    by_cases hlast : k = 104
    · subst hlast
      simp
    · have hk1 : k + 1 < 105 := by omega
      have hstep : (if (if 8 * (k % 15) + 8 + 8 ≥ 128 then 8 * (k / 15) + 8 else 8 * (k / 15)) + 8
            ≥ 64 then ([] : List (Nat × Nat × Nat))
          else stringGlyphs 128 64 cs (if 8 * (k % 15) + 8 + 8 ≥ 128 then 0 else 8 * (k % 15) + 8)
            (if 8 * (k % 15) + 8 + 8 ≥ 128 then 8 * (k / 15) + 8 else 8 * (k / 15)))
          = stringGlyphs 128 64 cs (8 * ((k + 1) % 15)) (8 * ((k + 1) / 15)) := by
        by_cases hwrap : 8 * (k % 15) + 8 + 8 ≥ 128
        · simp only [hwrap, if_true]
          rw [if_neg (by omega)]
          congr 1 <;> omega
        · simp only [hwrap, if_false]
          rw [if_neg (by omega)]
          congr 1 <;> omega
      rw [hstep, ih (k + 1) hk1 (fun c1 hc1 => hsup c1 (List.mem_cons_of_mem _ hc1))]
      apply List.map_congr_left
      intro i _
      simp only [Function.comp, List.getD_cons_succ, Prod.mk.injEq, true_and]
      constructor <;> congr 2 <;> omega

theorem stringGlyphs_capacity (text : List Nat) (hsup : ∀ c ∈ text, supported c) :
    stringGlyphs 128 64 text 0 0 = capacityGlyphs text := by
  have h := stringGlyphs_from text 0 (by norm_num) hsup
  simp only [Nat.zero_mod, Nat.zero_div, Nat.mul_zero, Nat.zero_add, Nat.sub_zero] at h
  exact h

theorem getD_take (text : List Nat) (n k : Nat) (hk : k < n) :
    (text.take n).getD k 0 = text.getD k 0 := by
  simp [List.getD_eq_getElem?_getD, List.getElem?_take, hk]

theorem capacityGlyphs_take (text : List Nat) :
    capacityGlyphs (text.take 105) = capacityGlyphs text := by
  unfold capacityGlyphs
  have hl : min (text.take 105).length 105 = min text.length 105 := by
    rw [List.length_take]; omega
  rw [hl]
  apply List.map_congr_left
  intro k hk
  have hk105 : k < 105 := by
    have := List.mem_range.mp hk
    omega
  rw [getD_take text 105 k hk105]

/-- On a display of width 128 and height 64 the loop started at `(0, 0)` makes
the `ssd1306_draw_char` calls `capacityGlyphs`. -/
theorem draw_string_capacity_glyphs (font : Nat → Nat) (d : ssd1306_t) (text : List Nat)
    (hw : d.width = 128) (hh : d.height = 64) (hsup : ∀ c ∈ text, supported c) :
    ssd1306_draw_string font d text 0 0 = drawGlyphs font d (capacityGlyphs text) := by
  unfold ssd1306_draw_string
  rw [Nat.zero_mod, draw_string_loop_glyphs, hw, hh, stringGlyphs_capacity text hsup]

theorem mem_capacityGlyphs (text : List Nat) (g : Nat × Nat × Nat) (hg : g ∈ capacityGlyphs text) :
    ∃ k, k < text.length ∧ k < 105 ∧ g = (text.getD k 0, 8 * (k % 15), 8 * (k / 15)) := by
  unfold capacityGlyphs at hg
  obtain ⟨k, hk, rfl⟩ := List.mem_map.mp hg
  have := List.mem_range.mp hk
  exact ⟨k, by omega, by omega, rfl⟩

/-- Claim C21: on a well-formed display of width 128 and height 64, for every
text of `n` supported characters, `ssd1306_draw_string` from `(0, 0)` makes
exactly `min n 105` calls of `ssd1306_draw_char`, the `k`-th (0-based) with the
`k`-th character at `x = 8 * (k mod 15)`, `y = 8 * (k div 15)`, and returns the
state those calls give.  Every pixel written has `x < 120` and `y < 56`
(15 glyphs on each of the 7 lines `y = 0 .. 48`), and the characters from the
106th on are dropped: the text and its first 105 characters give the same
result. -/
theorem draw_string_capacity (font : Nat → Nat) (d : ssd1306_t) (text : List Nat)
    (hwf : WF d) (hw : d.width = 128) (hh : d.height = 64)
    (hsup : ∀ c ∈ text, supported c) :
    stringGlyphs d.width d.height text 0 0
        = (List.range (min text.length 105)).map
            (fun k => (text.getD k 0, 8 * (k % 15), 8 * (k / 15))) ∧
      ssd1306_draw_string font d text 0 0
        = drawGlyphs font d ((List.range (min text.length 105)).map
            (fun k => (text.getD k 0, 8 * (k % 15), 8 * (k / 15)))) ∧
      (stringGlyphs d.width d.height text 0 0).length = min text.length 105 ∧
      (∃ d1, ssd1306_draw_string font d text 0 0 = .ok d1) ∧
      (∀ w ∈ stringWrites font d.width d.height text 0 0, w.1 < 120 ∧ w.2.1 < 56) ∧
      ssd1306_draw_string font d text 0 0 = ssd1306_draw_string font d (text.take 105) 0 0 := by
  have hg : stringGlyphs d.width d.height text 0 0 = capacityGlyphs text := by
    rw [hw, hh]
    exact stringGlyphs_capacity text hsup
  have hcell : ∀ w ∈ stringWrites font d.width d.height text 0 0, w.1 < 120 ∧ w.2.1 < 56 := by
    intro w hmem
    unfold stringWrites at hmem
    rw [Nat.zero_mod, hg] at hmem
    obtain ⟨g, hgm, hwg⟩ := List.mem_flatMap.mp hmem
    obtain ⟨k, -, hk, rfl⟩ := mem_capacityGlyphs text g hgm
    have := charWrites_in_cell font (text.getD k 0) (8 * (k % 15)) (8 * (k / 15)) (by omega)
      (by omega) w hwg
    omega
  have heq : ssd1306_draw_string font d text 0 0
      = applyWrites d (stringWrites font d.width d.height text 0 0) := by
    unfold ssd1306_draw_string stringWrites
    rw [draw_string_loop_glyphs, drawGlyphs_writes]
  refine ⟨hg, draw_string_capacity_glyphs font d text hw hh hsup, ?_, ?_, hcell, ?_⟩
  · rw [hg]
    unfold capacityGlyphs
    rw [List.length_map, List.length_range]
  · rw [heq]
    obtain ⟨d1, h1, -⟩ := applyWrites_grid _ d hwf hh (fun w hmem => by
      have := hcell w hmem
      omega)
    exact ⟨d1, h1⟩
  · rw [draw_string_capacity_glyphs font d text hw hh hsup,
      draw_string_capacity_glyphs font d (text.take 105) hw hh
        (fun c hc => hsup c (List.mem_of_mem_take hc)),
      capacityGlyphs_take]

theorem draw_string_capacity_witness :
    (WF demo ∧ demo.width = 128 ∧ demo.height = 64 ∧
      ∀ c ∈ List.replicate 120 65, supported c) ∧
      stringGlyphs demo.width demo.height (List.replicate 120 65) 0 0
        = (List.range (min (List.replicate 120 65).length 105)).map
            (fun k => ((List.replicate 120 65).getD k 0, 8 * (k % 15), 8 * (k / 15))) ∧
      ssd1306_draw_string testFont demo (List.replicate 120 65) 0 0
        = drawGlyphs testFont demo ((List.range (min (List.replicate 120 65).length 105)).map
            (fun k => ((List.replicate 120 65).getD k 0, 8 * (k % 15), 8 * (k / 15)))) ∧
      (stringGlyphs demo.width demo.height (List.replicate 120 65) 0 0).length
        = min (List.replicate 120 65).length 105 ∧
      (∃ d1, ssd1306_draw_string testFont demo (List.replicate 120 65) 0 0 = .ok d1) ∧
      (∀ w ∈ stringWrites testFont demo.width demo.height (List.replicate 120 65) 0 0,
        w.1 < 120 ∧ w.2.1 < 56) ∧
      ssd1306_draw_string testFont demo (List.replicate 120 65) 0 0
        = ssd1306_draw_string testFont demo ((List.replicate 120 65).take 105) 0 0 :=
  ⟨⟨init_WF _ _ _ _ _ _, by decide, by decide, by decide⟩,
    draw_string_capacity testFont demo (List.replicate 120 65) (init_WF _ _ _ _ _ _)
      (by decide) (by decide) (by decide)⟩


end SSD1306
